import Mathlib

/-!
Verification of the OpenCNPJ ETL_Python core against its specification.

The Python sources under ETL_Python/ are shallowly embedded here:

* strings are modelled as `List Char` (Unicode scalar values); the Unicode
  classes used by the `re` module (`\s`, `\d`) are modelled by explicit
  lists of code-point ranges, the case-insensitive class compiled from
  `INVALID_CHARACTERS` by the exact character set CPython's IGNORECASE
  folding produces for it, and `str.upper` exactly on that set (the only
  characters `is_valid_format` ever uppercases) together with the
  one-to-many expansion of the sharp s;
* `sqlite3` / catalog state is explicit state passing; the `asyncio.Lock`
  is a boolean field, and an `await lock.acquire()` issued by the task that
  already holds the lock is modelled as non-termination (`Option.none`),
  since `asyncio.Lock` is not reentrant and no other task can release it;
* JSON texts are parsed/serialized by an executable model of Python's
  `json.loads` / `json.dumps(..., ensure_ascii=False, separators=(",",":"))`
  restricted to integer numerals (floats are out of scope; where Python
  would produce a float the modelled parser fails, which routes the input
  through the `except` branch that returns it unchanged);
* DuckDB SQL scalar expressions (`COALESCE`, `CASE .. WHEN`, `LPAD`,
  string concatenation, the `~ptn` regex guard) are embedded over
  `Option String` with SQL NULL as `none`.
-/

namespace OpenCNPJ

/-! ## Python character classes -/

/-- Whitespace recognised by Python's `str.strip` and by `\s` in `re`
patterns over `str` (Unicode whitespace). -/
def isPySpace (c : Char) : Bool :=
  let n := c.toNat
  n = 0x20 || (0x9 ≤ n && n ≤ 0xd) || (0x1c ≤ n && n ≤ 0x1f) ||
  n = 0x85 || n = 0xa0 || n = 0x1680 || (0x2000 ≤ n && n ≤ 0x200a) ||
  n = 0x2028 || n = 0x2029 || n = 0x202f || n = 0x205f || n = 0x3000

/-- Code-point ranges of the Unicode `Nd` (decimal digit) category, which is
what `\d` matches in Python `re` patterns over `str`. -/
def ndRanges : List (Nat × Nat) :=
  [(0x30, 0x39), (0x660, 0x669), (0x6f0, 0x6f9), (0x7c0, 0x7c9),
   (0x966, 0x96f), (0x9e6, 0x9ef), (0xa66, 0xa6f), (0xae6, 0xaef),
   (0xb66, 0xb6f), (0xbe6, 0xbef), (0xc66, 0xc6f), (0xce6, 0xcef),
   (0xd66, 0xd6f), (0xde6, 0xdef), (0xe50, 0xe59), (0xed0, 0xed9),
   (0xf20, 0xf29), (0x1040, 0x1049), (0x1090, 0x1099), (0x17e0, 0x17e9),
   (0x1810, 0x1819), (0x1946, 0x194f), (0x19d0, 0x19d9), (0x1a80, 0x1a89),
   (0x1a90, 0x1a99), (0x1b50, 0x1b59), (0x1bb0, 0x1bb9), (0x1c40, 0x1c49),
   (0x1c50, 0x1c59), (0xa620, 0xa629), (0xa8d0, 0xa8d9), (0xa900, 0xa909),
   (0xa9d0, 0xa9d9), (0xa9f0, 0xa9f9), (0xaa50, 0xaa59), (0xabf0, 0xabf9),
   (0xff10, 0xff19), (0x104a0, 0x104a9), (0x10d30, 0x10d39),
   (0x11066, 0x1106f), (0x110f0, 0x110f9), (0x11136, 0x1113f),
   (0x111d0, 0x111d9), (0x112f0, 0x112f9), (0x11450, 0x11459),
   (0x114d0, 0x114d9), (0x11650, 0x11659), (0x116c0, 0x116c9),
   (0x11730, 0x11739), (0x118e0, 0x118e9), (0x11950, 0x11959),
   (0x11c50, 0x11c59), (0x11d50, 0x11d59), (0x11da0, 0x11da9),
   (0x16a60, 0x16a69), (0x16b50, 0x16b59), (0x1d7ce, 0x1d7ff),
   (0x1e140, 0x1e149), (0x1e2f0, 0x1e2f9), (0x1e950, 0x1e959),
   (0x1fbf0, 0x1fbf9)]

/-- Python `re` `\d` on `str`: any Unicode decimal digit. -/
def isPyDigit (c : Char) : Bool :=
  ndRanges.any (fun r => r.1 ≤ c.toNat && c.toNat ≤ r.2)

def isAsciiDigitCh (c : Char) : Bool := 0x30 ≤ c.toNat && c.toNat ≤ 0x39

def isUpperAZ (c : Char) : Bool := 0x41 ≤ c.toNat && c.toNat ≤ 0x5a

def isLowerAZ (c : Char) : Bool := 0x61 ≤ c.toNat && c.toNat ≤ 0x7a

/-- Python `str.upper` per character (a character can uppercase to several
characters). Inside `is_valid_format` the uppercasing runs only on
characters the `INVALID_CHARACTERS` pre-check has accepted, and on that
alphabet the full Unicode mapping is: ASCII `a`..`z` to `A`..`Z`, dotless
`\u0131` to `I`, long `\u017f` to `S`, and everything else to itself
(the dotted `\u0130` and the Kelvin sign `\u212a` are already uppercase
and map to themselves; decimal digits and the separators are uncased).
The one-to-many expansion of the sharp s (`\u00df` to `SS`) is included
as well; remaining cased characters outside the accepted class are left
unchanged, which `is_valid_format` never observes because the class
pre-check rejects them before `remove_mask` uppercases. -/
def pyUpperChar (c : Char) : List Char :=
  if isLowerAZ c then [Char.ofNat (c.toNat - 0x20)]
  else if c = 'ı' then ['I']
  else if c = 'ſ' then ['S']
  else if c = 'ß' then ['S', 'S']
  else [c]

/-- `str.upper` on a string. -/
def pyUpper (s : List Char) : List Char := s.flatMap pyUpperChar

/-! ## CnpjUtils (utils/cnpj_utils.py) -/

/-- `MASK_CHARACTERS = re.compile(r"[-./]")` (dot, slash, hyphen). -/
def isMaskChar (c : Char) : Bool := c = '.' || c = '/' || c = '-'

/-- The characters matching the `A-Z` part of `INVALID_CHARACTERS`
(the class `[^A-Z\d.-]` together with the slash) under `re.IGNORECASE`.
CPython compiles the cased range by simple lowercasing: at match time a
character matches iff its simple lowercase lies in `a`..`z` — which adds
the dotted `\u0130` (lowercases to `i`) and the Kelvin sign `\u212a`
(lowercases to `k`) to the ASCII letters — or it is one of the extra
equivalents sre registers for `i` and `s`: the dotless `\u0131` and the
long `\u017f`. The sharp s `\u00df` is not in the class (its simple
lowercase is itself and it has no registered equivalent). -/
def matchesAZIgnore (c : Char) : Bool :=
  isUpperAZ c || isLowerAZ c ||
  c.toNat = 0x130 || c.toNat = 0x131 || c.toNat = 0x17f || c.toNat = 0x212a

/-- One character is accepted by the complement of `INVALID_CHARACTERS`:
the case-insensitive `A-Z` part, a Unicode decimal digit (`\d`, unaffected
by the flag), or one of the uncased mask characters. -/
def isAllowedCnpjChar (c : Char) : Bool :=
  matchesAZIgnore c || isPyDigit c || isMaskChar c

/-- `CnpjUtils.remove_mask`: empty or whitespace-only input gives `""`;
otherwise the mask characters (dot, slash, hyphen) are deleted and the
rest uppercased. -/
def removeMask (s : List Char) : List Char :=
  if s.isEmpty || s.all isPySpace then []
  else pyUpper (s.filter (fun c => !(isMaskChar c)))

/-- `CnpjUtils._is_repeated_sequence`: every character equals the first
(`False` on strings shorter than 2). -/
def isRepeatedSequence (s : List Char) : Bool :=
  if s.length < 2 then false
  else
    match s with
    | [] => false
    | c :: _ => s.all (fun x => x == c)

/-- `FULL_CNPJ_PATTERN = re.compile(r"^[A-Z\d]\x7b12\x7d\d\x7b2\x7d$")`
matched against a string: twelve characters in ASCII `A-Z` or Unicode
decimal digits, then two Unicode decimal digits. (`$` would also match
before a trailing newline, but a newline never reaches this point in
`is_valid_format`: the character pre-check has already rejected it.) -/
def fullCnpjMatch (s : List Char) : Bool :=
  s.length = 14 &&
  (s.take 12).all (fun c => isUpperAZ c || isPyDigit c) &&
  (s.drop 12).all isPyDigit

/-- `CnpjUtils.is_valid_format`, clause by clause from the source: the
degenerate-input check, the `INVALID_CHARACTERS` search (before any
uppercasing), then length, full pattern and repeated-run checks on the
unmasked uppercased string. -/
def isValidFormat (s : List Char) : Bool :=
  if s.isEmpty || s.all isPySpace then false
  else if s.any (fun c => !(isAllowedCnpjChar c)) then false
  else if (removeMask s).length ≠ 14 then false
  else if !(fullCnpjMatch (removeMask s)) then false
  else if isRepeatedSequence (removeMask s) then false
  else true

/-- The ASCII-only character class `[A-Z0-9]` pattern written in the claim
(as opposed to the Unicode `\d` the code compiles). -/
def claimedAsciiPattern (s : List Char) : Bool :=
  s.length = 14 &&
  (s.take 12).all (fun c => isUpperAZ c || isAsciiDigitCh c) &&
  (s.drop 12).all isAsciiDigitCh

/-- The validity predicate of the amended claim, over the unmasked and
uppercased string: length 14, twelve characters in `[A-Z]` or Unicode `Nd`,
two Unicode `Nd` digits, and not a run of one repeated character. -/
def pyValidSpec (r : List Char) : Prop :=
  r.length = 14 ∧
  (∀ c ∈ r.take 12, isUpperAZ c = true ∨ isPyDigit c = true) ∧
  (∀ c ∈ r.drop 12, isPyDigit c = true) ∧
  isRepeatedSequence r = false

instance (r : List Char) : Decidable (pyValidSpec r) := by
  unfold pyValidSpec
  infer_instance

/-- Lowercase ASCII letters are not Unicode decimal digits. -/
theorem isPyDigit_of_lower_false {c : Char} (h : isLowerAZ c = true) :
    isPyDigit c = false := by
  unfold isLowerAZ at h
  simp only [Bool.and_eq_true, decide_eq_true_eq] at h
  unfold isPyDigit
  simp only [List.any_eq_false, Bool.and_eq_true, decide_eq_true_eq, not_and]
  intro r hr
  fin_cases hr <;> dsimp only <;> omega

/-- `removeMask` on empty or whitespace-only input. -/
theorem removeMask_of_degenerate {s : List Char}
    (h : (s.isEmpty || s.all isPySpace) = true) : removeMask s = [] := by
  unfold removeMask
  rw [if_pos h]

/-- `removeMask` on a non-degenerate input filters the mask characters and
uppercases. -/
theorem removeMask_of_nondegenerate {s : List Char}
    (h : ¬((s.isEmpty || s.all isPySpace) = true)) :
    removeMask s = pyUpper (s.filter (fun c => !(isMaskChar c))) := by
  unfold removeMask
  rw [if_neg h]

/-- Membership characterisation of the full CNPJ pattern. -/
theorem fullCnpjMatch_iff (r : List Char) :
    fullCnpjMatch r = true ↔
      (r.length = 14 ∧ (∀ c ∈ r.take 12, isUpperAZ c = true ∨ isPyDigit c = true) ∧
       ∀ c ∈ r.drop 12, isPyDigit c = true) := by
  unfold fullCnpjMatch
  simp [List.all_eq_true, and_assoc]

/-- On a character the class accepts, uppercasing yields exactly one
character (the expansion to `SS` happens only at the sharp s, which the
class rejects). -/
theorem pyUpperChar_allowed_singleton {c : Char}
    (h : isAllowedCnpjChar c = true) : ∃ d, pyUpperChar c = [d] := by
  unfold pyUpperChar
  split_ifs with h1 h2 h3 h4
  · exact ⟨Char.ofNat (c.toNat - 0x20), rfl⟩
  · exact ⟨'I', rfl⟩
  · exact ⟨'S', rfl⟩
  · exfalso
    subst h4
    exact absurd h (by decide)
  · exact ⟨c, rfl⟩

theorem pyUpper_replicate {c d : Char} (h : pyUpperChar c = [d]) (n : Nat) :
    pyUpper (List.replicate n c) = List.replicate n d := by
  induction n with
  | zero => rfl
  | succ n ih =>
    unfold pyUpper at ih ⊢
    rw [List.replicate_succ, List.flatMap_cons, h, ih, List.replicate_succ]
    rfl

/-- A replicated list of length at least 2 is a repeated sequence. -/
theorem isRepeatedSequence_replicate {n : Nat} (d : Char) (h : 2 ≤ n) :
    isRepeatedSequence (List.replicate n d) = true := by
  unfold isRepeatedSequence
  rw [if_neg (by simp; omega)]
  obtain ⟨m, rfl⟩ : ∃ m, n = m + 1 := ⟨n - 1, by omega⟩
  rw [List.replicate_succ]
  apply List.all_eq_true.mpr
  intro x hx
  have : x = d := List.eq_of_mem_replicate (List.replicate_succ d m ▸ hx)
  simp [this]

/-- A concrete input on which the code and the claimed ASCII pattern
disagree: twelve `A`s followed by two ARABIC-INDIC digits (matched by the
Python `\d` in `FULL_CNPJ_PATTERN`, but not by `[0-9]`). -/
def c7Input : List Char := List.replicate 12 'A' ++ ['١', '٢']

/-- Claim C7 (counterexample): the claimed equivalence
`valid(s) = true ↔ (after strip: length 14 ∧ matches the ASCII class
[A-Z0-9] twelve times then [0-9] twice ∧ not a repeated run)` is false at
`c7Input`: `is_valid_format` accepts it although the last two characters
are not in ASCII `[0-9]`. -/
theorem claim_C7_counterexample :
    ¬(isValidFormat c7Input = true ↔
      ((removeMask c7Input).length = 14 ∧
       claimedAsciiPattern (removeMask c7Input) = true ∧
       isRepeatedSequence (removeMask c7Input) = false)) := by
  decide

/-- Claim C7 (amended): `is_valid_format(s)` is true iff every character of
`s` lies in the case-insensitive class compiled from the pattern (ASCII
letters in either case, the dotless `\u0131`, the long `\u017f`, the
dotted `\u0130`, the Kelvin sign `\u212a`, Unicode decimal digits, and
the separators dot, slash, hyphen), and after deleting the separators and
uppercasing the result has length 14, its first 12 characters in `[A-Z]`
or Unicode decimal digits, its last 2 characters Unicode decimal digits,
and it is not a run of one repeated character. The class pre-check runs
before the uppercasing, so a string is rejected when any character is
outside the class even if its uppercased form would match the pattern.
In particular no input whose unmasked form is shorter than 14 is accepted,
and no 14-fold repetition of one character is accepted. -/
theorem claim_C7 :
    (∀ s : List Char, isValidFormat s = true ↔
      ((∀ c ∈ s, isAllowedCnpjChar c = true) ∧ pyValidSpec (removeMask s))) ∧
    (∀ s : List Char, (removeMask s).length < 14 → isValidFormat s = false) ∧
    (∀ c : Char, isValidFormat (List.replicate 14 c) = false) := by
  have main : ∀ s : List Char, isValidFormat s = true ↔
      ((∀ c ∈ s, isAllowedCnpjChar c = true) ∧ pyValidSpec (removeMask s)) := by
    intro s
    unfold isValidFormat
    split_ifs with h1 h2 h3 h4 h5
    · simp only [false_iff]
      intro hv
      have := removeMask_of_degenerate h1
      rw [this] at hv
      exact absurd hv.2.1 (by simp)
    · simp only [false_iff]
      intro hv
      obtain ⟨c, hcs, hcbad⟩ := List.any_eq_true.mp h2
      rw [Bool.not_eq_true'] at hcbad
      rw [hv.1 c hcs] at hcbad
      cases hcbad
    · simp only [false_iff]
      intro hv
      exact h3 hv.2.1
    · simp only [false_iff]
      intro hv
      rcases hv.2 with ⟨hl, ht, hd, _⟩
      have : fullCnpjMatch (removeMask s) = true := (fullCnpjMatch_iff _).mpr ⟨hl, ht, hd⟩
      rw [this] at h4
      simp at h4
    · simp only [false_iff]
      intro hv
      rw [hv.2.2.2.2] at h5
      cases h5
    · simp only [true_iff]
      push_neg at h3
      refine ⟨?_, ?_⟩
      · intro c hc
        cases hca : isAllowedCnpjChar c with
        | true => rfl
        | false =>
          exact absurd (List.any_eq_true.mpr ⟨c, hc, by rw [hca]; rfl⟩) h2
      · have hfull : fullCnpjMatch (removeMask s) = true := by
          cases hf : fullCnpjMatch (removeMask s) with
          | true => rfl
          | false => exact absurd (by rw [hf]; rfl) h4
        have hnrep : isRepeatedSequence (removeMask s) = false := by
          cases hr : isRepeatedSequence (removeMask s) with
          | false => rfl
          | true => exact absurd hr h5
        have hparts := (fullCnpjMatch_iff _).mp hfull
        exact ⟨h3, hparts.2.1, hparts.2.2, hnrep⟩
  refine ⟨main, ?_, ?_⟩
  · intro s hlen
    cases h : isValidFormat s with
    | false => rfl
    | true =>
      exfalso
      have h14 := ((main s).mp h).2.1
      omega
  · intro c
    cases h : isValidFormat (List.replicate 14 c) with
    | false => rfl
    | true =>
      exfalso
      obtain ⟨hall, hv⟩ := (main _).mp h
      have hlen := hv.1
      have hrep := hv.2.2.2
      have hcall : isAllowedCnpjChar c = true :=
        hall c (List.mem_replicate.mpr ⟨by omega, rfl⟩)
      by_cases hdeg : ((List.replicate 14 c).isEmpty ||
          (List.replicate 14 c).all isPySpace) = true
      · rw [removeMask_of_degenerate hdeg] at hlen
        simp at hlen
      · have hmaskc : isMaskChar c = false := by
          cases hm : isMaskChar c with
          | false => rfl
          | true =>
            exfalso
            rw [removeMask_of_nondegenerate hdeg] at hlen
            have hnil : (List.replicate 14 c).filter (fun x => !(isMaskChar x)) = [] := by
              apply List.filter_eq_nil_iff.mpr
              intro b hb
              have hba : b = c := List.eq_of_mem_replicate hb
              subst hba
              simp [hm]
            rw [hnil] at hlen
            exact absurd hlen (by decide)
        have hfilter : (List.replicate 14 c).filter (fun x => !(isMaskChar x)) =
            List.replicate 14 c := by
          apply List.filter_eq_self.mpr
          intro a ha
          have hac : a = c := List.eq_of_mem_replicate ha
          subst hac
          simp [hmaskc]
        obtain ⟨d, hd⟩ := pyUpperChar_allowed_singleton hcall
        rw [removeMask_of_nondegenerate hdeg, hfilter, pyUpper_replicate hd 14] at hrep
        rw [isRepeatedSequence_replicate d (by omega)] at hrep
        cases hrep

/-- Witness for `claim_C7` at concrete inputs: `"123"` unmasks to a string
of length 3 and is rejected; the 14-fold repetition of `7` is rejected; a
regular well-formed identifier is accepted; and eleven `A`s followed by
the long `\u017f` and two digits is accepted (the long s is in the
case-insensitive class and uppercases to `S`). -/
theorem claim_C7_witness :
    isValidFormat ['1', '2', '3'] = false ∧
    isValidFormat (List.replicate 14 '7') = false ∧
    isValidFormat "12345678000190".toList = true ∧
    isValidFormat (List.replicate 11 'A' ++ ['ſ', '1', '2']) = true :=
  ⟨claim_C7.2.1 ['1', '2', '3'] (by decide), claim_C7.2.2 '7',
   (claim_C7.1 "12345678000190".toList).mpr (by decide),
   (claim_C7.1 (List.replicate 11 'A' ++ ['ſ', '1', '2'])).mpr (by decide)⟩

/-! ## HashCacheManager diff probe (utils/hash_cache_manager.py) -/

/-- One parsed NDJSON line ready for upload: `ProcessedItem(cnpj, json, hash)`. -/
structure ProcessedItem where
  cnpj : String
  json : String
  hash : String
deriving DecidableEq, Repr

/-- The `hashes` table: `cnpj TEXT PRIMARY KEY, hash TEXT` as an association
list (the primary key makes the first match the only match). -/
abbrev Catalog := List (String × String)

/-- Row lookup by primary key. -/
def catalogLookup : Catalog → String → Option String
  | [], _ => none
  | (k, v) :: rest, q => if k == q then some v else catalogLookup rest q

/-- Fuel-driven chunking worker; the fuel is instantiated with the list
length, which always suffices. -/
def chunksGo (fuel npred : Nat) (xs : List α) : List (List α) :=
  match fuel, xs with
  | _, [] => []
  | 0, _ :: _ => []
  | f + 1, x :: rest => (x :: rest).take (npred + 1) :: chunksGo f npred (rest.drop npred)

/-- The probe chunks `items[i:i+500]` produced by
`range(0, len(items), check_batch_size)`; `npred + 1` is the chunk size, so
the source's `check_batch_size = 500` is `chunksBy 499`. -/
def chunksBy (npred : Nat) (xs : List α) : List (List α) :=
  chunksGo xs.length npred xs

/-- One probe: `SELECT cnpj, hash FROM hashes WHERE cnpj IN (batch)` builds
`existing_hashes`, and an item is yielded when its cnpj is absent from it or
present with a different hash. -/
def probeBatch (cat : Catalog) (batch : List ProcessedItem) : List ProcessedItem :=
  let existing := cat.filter (fun row => batch.any (fun it => it.cnpj == row.1))
  batch.filter (fun it =>
    match catalogLookup existing it.cnpj with
    | none => true
    | some h => h != it.hash)

/-- `HashCacheManager.get_items_to_process_async`: probe the catalog in
chunks of 500 and concatenate the yields in order. -/
def getItemsToProcess (cat : Catalog) (items : List ProcessedItem) : List ProcessedItem :=
  (chunksBy 499 items).flatMap (probeBatch cat)

/-- The claim's per-item yield condition: absent from the catalog, or present
with a different stored hash. -/
def wantsProcessing (cat : Catalog) (it : ProcessedItem) : Bool :=
  match catalogLookup cat it.cnpj with
  | none => true
  | some h => h != it.hash

/-- Restricting the catalog to a key set containing `q` does not change the
lookup at `q`. -/
theorem catalogLookup_filter {cat : Catalog} {p : String × String → Bool} {q : String}
    (hp : ∀ row : String × String, row.1 = q → p row = true) :
    catalogLookup (cat.filter p) q = catalogLookup cat q := by
  induction cat with
  | nil => rfl
  | cons r rest ih =>
    obtain ⟨k, v⟩ := r
    by_cases hk : k == q
    · have hkq : k = q := by simpa using hk
      have hpr : p (k, v) = true := hp (k, v) hkq
      rw [List.filter_cons, if_pos hpr]
      show (if (k == q) = true then some v else catalogLookup (List.filter p rest) q) =
        (if (k == q) = true then some v else catalogLookup rest q)
      rw [if_pos hk, if_pos hk]
    · rw [List.filter_cons]
      by_cases hpr : p (k, v) = true
      · rw [if_pos hpr]
        show (if (k == q) = true then some v else catalogLookup (List.filter p rest) q) =
          (if (k == q) = true then some v else catalogLookup rest q)
        rw [if_neg (by simpa using hk), if_neg (by simpa using hk)]
        exact ih
      · rw [if_neg hpr]
        show catalogLookup (List.filter p rest) q =
          (if (k == q) = true then some v else catalogLookup rest q)
        rw [if_neg (by simpa using hk)]
        exact ih

/-- A probe of one batch yields exactly the batch members that are absent or
stale, in batch order. -/
theorem probeBatch_eq_filter (cat : Catalog) (batch : List ProcessedItem) :
    probeBatch cat batch = batch.filter (wantsProcessing cat) := by
  unfold probeBatch
  apply List.filter_congr
  intro it hit
  have hlk : catalogLookup
      (cat.filter (fun row => batch.any (fun x => x.cnpj == row.1))) it.cnpj =
      catalogLookup cat it.cnpj := by
    apply catalogLookup_filter
    intro row hrow
    apply List.any_eq_true.mpr
    exact ⟨it, hit, by simp [hrow]⟩
  unfold wantsProcessing
  rw [hlk]

/-- Chunking and concatenating preserves a filter. -/
theorem chunksGo_flatMap_filter (p : ProcessedItem → Bool) (npred : Nat) :
    ∀ (fuel : Nat) (xs : List ProcessedItem), xs.length ≤ fuel →
      (chunksGo fuel npred xs).flatMap (fun b => b.filter p) = xs.filter p := by
  intro fuel
  induction fuel with
  | zero =>
    intro xs hlen
    have : xs = [] := List.length_eq_zero.mp (Nat.le_zero.mp hlen)
    subst this
    rfl
  | succ m ih =>
    intro xs hlen
    match xs with
    | [] => rfl
    | x :: rest =>
      rw [chunksGo, List.flatMap_cons]
      have hdrop : rest.drop npred = (x :: rest).drop (npred + 1) := by
        simp [List.drop_succ_cons]
      have hlen2 : (rest.drop npred).length ≤ m := by
        simp only [List.length_drop]
        simp only [List.length_cons] at hlen
        omega
      rw [ih (rest.drop npred) hlen2, hdrop]
      rw [← List.filter_append, List.take_append_drop]

/-- Claim C2: for every catalog state and item list,
`get_items_to_process_async` yields exactly the items that are absent from
the catalog or present with a different stored hash, in input order (within
each chunk of at most 500 and across chunks); both facts are captured by the
equality with the order-preserving `filter`. -/
theorem claim_C2 (cat : Catalog) (items : List ProcessedItem) :
    getItemsToProcess cat items = items.filter (wantsProcessing cat) := by
  unfold getItemsToProcess
  have hfun : probeBatch cat = fun b => b.filter (wantsProcessing cat) :=
    funext (probeBatch_eq_filter cat)
  unfold chunksBy
  rw [hfun]
  exact chunksGo_flatMap_filter (wantsProcessing cat) 499 items.length items (Nat.le_refl _)

/-! ## HashCacheManager write path and the class-wide asyncio lock
(utils/hash_cache_manager.py) -/

/-- Connection-level database state: `rows` is what the open connection sees
(uncommitted inserts included, since the probe `SELECT` runs on the same
connection), `committed` is the durable content, `pendingCount` is
`_pending_inserts`, `txnOpen` is `_current_transaction`. -/
structure CacheDb where
  rows : Catalog
  committed : Catalog
  pendingCount : Nat
  txnOpen : Bool
deriving DecidableEq, Repr

/-- Manager state: the database plus the class-wide non-reentrant
`asyncio.Lock`. -/
structure CacheState where
  db : CacheDb
  locked : Bool
deriving DecidableEq, Repr

/-- `BATCH_SIZE = 10000`. -/
def batchSizeConst : Nat := 10000

/-- `INSERT OR REPLACE INTO hashes (cnpj, hash) VALUES (?, ?)` on the
primary-key table. -/
def insertOrReplace (rows : Catalog) (k v : String) : Catalog :=
  if rows.any (fun r => r.1 == k) then
    rows.map (fun r => if r.1 == k then (k, v) else r)
  else rows ++ [(k, v)]

/-- `_commit_batch_async`: commit and reset the pending counter when a
transaction is open. -/
def commitBatchAsync (db : CacheDb) : CacheDb :=
  if db.txnOpen then
    { rows := db.rows, committed := db.rows, pendingCount := 0, txnOpen := false }
  else db

/-- `add_async(cnpj, hash)`. Its first statement is
`await cls._lock.acquire()`; `asyncio.Lock` is non-reentrant and the holder
is the very coroutine that is awaiting, so no release can ever happen and
the `await` never returns — modelled as `none`. Otherwise the lock is
taken, the row upserted, the pending counter bumped (committing at
`BATCH_SIZE`), and the lock released. -/
def addAsync (st : CacheState) (cnpj hashValue : String) : Option CacheState :=
  if st.locked then none
  else
    let db0 : CacheDb := { st.db with txnOpen := true }
    let db1 : CacheDb := { db0 with
      rows := insertOrReplace db0.rows cnpj hashValue,
      pendingCount := db0.pendingCount + 1 }
    let db2 : CacheDb :=
      if batchSizeConst ≤ db1.pendingCount then commitBatchAsync db1 else db1
    some { db := db2, locked := false }

/-- The `for item in items: await cls.add_async(item.cnpj, item.hash)`
loop body of `add_batch_async`. -/
def addAllItems (st : CacheState) : List ProcessedItem → Option CacheState
  | [] => some st
  | it :: rest =>
    match addAsync st it.cnpj it.hash with
    | none => none
    | some st2 => addAllItems st2 rest

/-- `add_batch_async(items)`: enter `async with cls._lock` (blocking forever
if it is already held and never released), run `add_async` for each item,
then `_commit_batch_async`, then release the lock on exit. -/
def addBatchAsync (st : CacheState) (items : List ProcessedItem) : Option CacheState :=
  if st.locked then none
  else
    match addAllItems { st with locked := true } items with
    | none => none
    | some st2 => some { db := commitBatchAsync st2.db, locked := false }

/-- Claim C6 (code refutation): `add_batch_async` never completes on a
non-empty item list. It acquires the class lock with `async with cls._lock`
and then the first `add_async` call awaits the same non-reentrant lock,
which only the now-blocked coroutine could release; no row is inserted and
no commit happens. On the empty list the call completes and merely commits
the pending transaction. -/
theorem claim_C6 (st : CacheState) (it : ProcessedItem) (its : List ProcessedItem) :
    addBatchAsync st (it :: its) = none ∧
    addBatchAsync ⟨st.db, false⟩ [] =
      some { db := commitBatchAsync st.db, locked := false } := by
  constructor
  · unfold addBatchAsync
    by_cases h : st.locked = true
    · rw [if_pos h]
    · rw [if_neg h]
      unfold addAllItems addAsync
      rw [if_pos rfl]
  · rfl

/-! ## NdjsonProcessor.process_ndjson_file_to_storage: the per-prefix
diff, upload and catalog-update flow (processors/ndjson_processor.py) -/

/-- Result of one per-prefix run: no change detected, uploaded and catalog
updated, upload failed with `RuntimeError` raised, or the coroutine blocked
forever. -/
inductive PrefixOutcome where
  | noChange (st : CacheState)
  | uploaded (st : CacheState)
  | uploadFailed (st : CacheState)
  | blocked
deriving DecidableEq, Repr

/-- `process_ndjson_file_to_storage` given the items parsed from the NDJSON
file and the boolean result of `RcloneClient.upload_folder_async`: empty
parses return early; the diff generator acquires the class lock; an empty
keep-list reports no change; otherwise the files are written and uploaded,
and on success the catalog batch update runs (`add_batch_async`), while on
failure `RuntimeError` is raised with the catalog untouched. -/
def processNdjsonFileToStorage (st : CacheState) (items : List ProcessedItem)
    (uploadOk : Bool) : PrefixOutcome :=
  if items.isEmpty then .noChange st
  else if st.locked then .blocked
  else
    let keep := getItemsToProcess st.db.rows items
    if keep.isEmpty then .noChange st
    else if uploadOk then
      match addBatchAsync st keep with
      | none => .blocked
      | some st2 => .uploaded st2
    else .uploadFailed st

/-- Claim C3 (code refutation at the failing input): with an empty catalog,
one new item, and a successful upload, the flow reaches `add_batch_async`,
which deadlocks — the catalog is never updated even though the upload
succeeded, so "updated iff upload success" fails; the failure direction by
itself does hold: on upload failure the flow raises and leaves the catalog
state exactly as it was. -/
theorem claim_C3 :
    processNdjsonFileToStorage ⟨⟨[], [], 0, false⟩, false⟩
        [⟨"12345678000190", "x", "h1"⟩] true = .blocked ∧
    processNdjsonFileToStorage ⟨⟨[], [], 0, false⟩, false⟩
        [⟨"12345678000190", "x", "h1"⟩] false =
      .uploadFailed ⟨⟨[], [], 0, false⟩, false⟩ := by
  constructor <;> rfl

/-! ## SQL scalar semantics and the per-establishment document projection
(processors/parquet_ingestor.py, `_get_json_struct_fields`) -/

/-- SQL text value: `none` is NULL. -/
abbrev SqlStr := Option String

/-- `COALESCE(x, lit)` with a literal second argument. -/
def sqlCoalesce (x : SqlStr) (d : String) : String := x.getD d

/-- DuckDB `LPAD(x, n, c)` (PostgreSQL semantics): NULL-propagating; pads on
the left up to `n` characters and truncates on the right when the input is
longer than `n`. -/
def sqlLpad (x : SqlStr) (n : Nat) (pad : Char) : SqlStr :=
  x.map (fun t =>
    if n ≤ t.length then ⟨t.toList.take n⟩
    else ⟨List.replicate (n - t.length) pad ++ t.toList⟩)

/-- `CASE scrut WHEN k THEN v ... ELSE els END`: a NULL scrutinee compares
unknown against every branch and falls to the ELSE. -/
def sqlCaseEq (scrut : SqlStr) (branches : List (String × String)) (els : SqlStr) : SqlStr :=
  match scrut with
  | none => els
  | some s =>
    match branches.find? (fun b => b.1 == s) with
    | some b => some b.2
    | none => els

/-- NULL-propagating SQL concatenation `x || y`. -/
def sqlConcat (x y : SqlStr) : SqlStr :=
  match x, y with
  | some a, some b => some (a ++ b)
  | _, _ => none

/-- The regex guard `x ~ ptn8` where ptn8 requires exactly 8 ASCII digits. -/
def isDate8 (s : String) : Bool :=
  s.length = 8 && s.toList.all isAsciiDigitCh

/-- `SUBSTRING(x,1,4) || dash || SUBSTRING(x,5,2) || dash || SUBSTRING(x,7,2)`. -/
def reformatDate8 (s : String) : String :=
  ⟨s.toList.take 4⟩ ++ "-" ++ ⟨(s.toList.drop 4).take 2⟩ ++ "-" ++ ⟨(s.toList.drop 6).take 2⟩

/-- The date projection used for every date column:
`CASE WHEN x ~ ptn8 THEN reformat(x) ELSE COALESCE(x, empty) END`. -/
def sqlDateField (x : SqlStr) : SqlStr :=
  match x with
  | none => some (sqlCoalesce none "")
  | some s => if isDate8 s then some (reformatDate8 s) else some (sqlCoalesce (some s) "")

/-- The translation table of the `situacao_cadastral` CASE. -/
def situacaoTable : List (String × String) :=
  [("01", "Nula"), ("02", "Ativa"), ("03", "Suspensa"), ("04", "Inapta"), ("08", "Baixada")]

/-- `situacao_cadastral := CASE LPAD(e.situacao_cadastral, 2, '0')
WHEN '01' THEN 'Nula' ... ELSE e.situacao_cadastral END` — note that the
ELSE branch is the raw column without COALESCE. -/
def situacaoCadastralField (x : SqlStr) : SqlStr :=
  sqlCaseEq (sqlLpad x 2 '0') situacaoTable x

/-- `matriz_filial := CASE e.identificador_matriz_filial WHEN '1' THEN
'Matriz' WHEN '2' THEN 'Filial' ELSE e.identificador_matriz_filial END` —
again no COALESCE in the ELSE branch. -/
def matrizFilialField (x : SqlStr) : SqlStr :=
  sqlCaseEq x [("1", "Matriz"), ("2", "Filial")] x

/-- `porte_empresa := CASE emp.porte_empresa WHEN '00' ... ELSE
COALESCE(emp.porte_empresa, empty) END`. -/
def porteEmpresaField (x : SqlStr) : SqlStr :=
  sqlCaseEq x
    [("00", "Não informado"), ("01", "Microempresa (ME)"),
     ("03", "Empresa de Pequeno Porte (EPP)"), ("05", "Demais")]
    (some (sqlCoalesce x ""))

/-- The nullable columns feeding the string-typed struct fields after the
LEFT JOINs of `_build_json_query_for_prefix` (a missed join leaves the
joined table's columns NULL); all columns are stored as text. -/
structure JoinedRow where
  cnpj_basico : SqlStr
  cnpj_ordem : SqlStr
  cnpj_dv : SqlStr
  identificador_matriz_filial : SqlStr
  nome_fantasia : SqlStr
  situacao_cadastral : SqlStr
  data_situacao_cadastral : SqlStr
  data_inicio_atividade : SqlStr
  cnae_principal : SqlStr
  tipo_logradouro : SqlStr
  logradouro : SqlStr
  numero : SqlStr
  complemento : SqlStr
  bairro : SqlStr
  cep : SqlStr
  uf : SqlStr
  correio_eletronico : SqlStr
  emp_razao_social : SqlStr
  emp_capital_social : SqlStr
  emp_porte_empresa : SqlStr
  nat_descricao : SqlStr
  mun_descricao : SqlStr
  s_opcao_simples : SqlStr
  s_data_opcao_simples : SqlStr
  s_opcao_mei : SqlStr
  s_data_opcao_mei : SqlStr
deriving DecidableEq, Repr

/-- The string-typed fields of the projected document, as they come out of
`to_json(struct_pack(...))`: a `none` serializes as JSON `null`. The
list-valued fields (`cnaes_secundarios`, `telefones`, `QSA`) are not
string-typed and are out of scope for this structure. -/
structure ProjectedDoc where
  cnpj : SqlStr
  razao_social : SqlStr
  nome_fantasia : SqlStr
  situacao_cadastral : SqlStr
  data_situacao_cadastral : SqlStr
  matriz_filial : SqlStr
  data_inicio_atividade : SqlStr
  cnae_principal : SqlStr
  natureza_juridica : SqlStr
  tipo_logradouro : SqlStr
  logradouro : SqlStr
  numero : SqlStr
  complemento : SqlStr
  bairro : SqlStr
  cep : SqlStr
  uf : SqlStr
  municipio : SqlStr
  email : SqlStr
  capital_social : SqlStr
  porte_empresa : SqlStr
  opcao_simples : SqlStr
  data_opcao_simples : SqlStr
  opcao_mei : SqlStr
  data_opcao_mei : SqlStr
deriving DecidableEq, Repr

/-- The string-typed struct fields of `_get_json_struct_fields`, expression
by expression. -/
def projectFields (e : JoinedRow) : ProjectedDoc where
  cnpj := sqlConcat (sqlConcat e.cnpj_basico e.cnpj_ordem) e.cnpj_dv
  razao_social := some (sqlCoalesce e.emp_razao_social "")
  nome_fantasia := some (sqlCoalesce e.nome_fantasia "")
  situacao_cadastral := situacaoCadastralField e.situacao_cadastral
  data_situacao_cadastral := sqlDateField e.data_situacao_cadastral
  matriz_filial := matrizFilialField e.identificador_matriz_filial
  data_inicio_atividade := sqlDateField e.data_inicio_atividade
  cnae_principal := some (sqlCoalesce e.cnae_principal "")
  natureza_juridica := some (sqlCoalesce e.nat_descricao "")
  tipo_logradouro := some (sqlCoalesce e.tipo_logradouro "")
  logradouro := some (sqlCoalesce e.logradouro "")
  numero := some (sqlCoalesce e.numero "")
  complemento := some (sqlCoalesce e.complemento "")
  bairro := some (sqlCoalesce e.bairro "")
  cep := some (sqlCoalesce e.cep "")
  uf := some (sqlCoalesce e.uf "")
  municipio := some (sqlCoalesce e.mun_descricao "")
  email := some (sqlCoalesce e.correio_eletronico "")
  capital_social := some (sqlCoalesce e.emp_capital_social "")
  porte_empresa := porteEmpresaField e.emp_porte_empresa
  opcao_simples := some (sqlCoalesce e.s_opcao_simples "")
  data_opcao_simples := sqlDateField e.s_data_opcao_simples
  opcao_mei := some (sqlCoalesce e.s_opcao_mei "")
  data_opcao_mei := sqlDateField e.s_data_opcao_mei

/-- An establishment row whose status and HQ-or-branch columns are NULL
(which is what DuckDB `read_csv` produces for an empty unquoted CSV field),
with no matching company / simples / lookup rows. -/
def c4Row : JoinedRow :=
  ⟨some "12345678", some "0001", some "90", none, none, none, none, none,
   none, none, none, none, none, none, none, none, none, none, none, none,
   none, none, none, none, none, none⟩

/-- Claim C4 (code refutation at the failing input): on `c4Row`, the
projected `situacao_cadastral` and `matriz_filial` are SQL NULL — their
CASE expressions fall to an ELSE branch that returns the raw column without
COALESCE — and `to_json` therefore emits JSON `null` for them, while a
COALESCE-guarded field such as `razao_social` correctly projects to the
empty string. -/
theorem claim_C4 :
    (projectFields c4Row).situacao_cadastral = none ∧
    (projectFields c4Row).matriz_filial = none ∧
    (projectFields c4Row).razao_social = some "" ∧
    (projectFields c4Row).data_situacao_cadastral = some "" := by
  exact ⟨rfl, rfl, rfl, rfl⟩

/-- The spec-side translation table of claim C5, written from the spec's
words: exactly the five codes, everything else untranslated. -/
def situacaoSpecTable (t : String) : Option String :=
  if t = "01" then some "Nula"
  else if t = "02" then some "Ativa"
  else if t = "03" then some "Suspensa"
  else if t = "04" then some "Inapta"
  else if t = "08" then some "Baixada"
  else none

/-- Left-pad with `0` to width 2 (truncating to the first two characters
when longer), as the amended claim words it. -/
def situacaoSpecLpad (t : String) : String :=
  if 2 ≤ t.length then ⟨t.toList.take 2⟩
  else ⟨List.replicate (2 - t.length) '0' ++ t.toList⟩

/-- The amended claim's description of the status projection: NULL stays
NULL; otherwise the code is left-padded to two characters and translated
through the table, and a padded code outside the table passes the raw
(unpadded) input through unchanged. -/
def situacaoSpecFn (x : SqlStr) : SqlStr :=
  match x with
  | none => none
  | some s =>
    match situacaoSpecTable (situacaoSpecLpad s) with
    | some t => some t
    | none => some s

/-- Claim C5 (counterexample): the raw status code `"2"` is not a key of
the translation table `01/02/03/04/08`, so the claim as stated requires it
to pass through unchanged, but the code LPADs it to `"02"` first and
translates it to `"Ativa"`. -/
theorem claim_C5_counterexample :
    situacaoCadastralField (some "2") = some "Ativa" ∧
    situacaoSpecTable "2" = none ∧
    situacaoCadastralField (some "2") ≠ some "2" := by
  refine ⟨rfl, rfl, ?_⟩
  intro h
  rw [show situacaoCadastralField (some "2") = some "Ativa" from rfl] at h
  simp at h

/-- `find?` over the embedded CASE table agrees with the spec-side table. -/
theorem situacaoTable_find (t : String) :
    (situacaoTable.find? (fun b => b.1 == t)).map Prod.snd = situacaoSpecTable t := by
  rcases eq_or_ne t "01" with h | h1
  · subst h; rfl
  rcases eq_or_ne t "02" with h | h2
  · subst h; rfl
  rcases eq_or_ne t "03" with h | h3
  · subst h; rfl
  rcases eq_or_ne t "04" with h | h4
  · subst h; rfl
  rcases eq_or_ne t "08" with h | h5
  · subst h; rfl
  have h1s : ¬("01" = t) := fun h => h1 h.symm
  have h2s : ¬("02" = t) := fun h => h2 h.symm
  have h3s : ¬("03" = t) := fun h => h3 h.symm
  have h4s : ¬("04" = t) := fun h => h4 h.symm
  have h5s : ¬("08" = t) := fun h => h5 h.symm
  have e1 : ("01" == t) = false := beq_eq_false_iff_ne.mpr h1s
  have e2 : ("02" == t) = false := beq_eq_false_iff_ne.mpr h2s
  have e3 : ("03" == t) = false := beq_eq_false_iff_ne.mpr h3s
  have e4 : ("04" == t) = false := beq_eq_false_iff_ne.mpr h4s
  have e5 : ("08" == t) = false := beq_eq_false_iff_ne.mpr h5s
  unfold situacaoTable situacaoSpecTable
  simp [List.find?, e1, e2, e3, e4, e5, h1, h2, h3, h4, h5]

/-- Claim C5 (amended): the projected `situacao_cadastral` equals the
spec-side function that first left-pads the status code with `0` to width
2 (truncating when longer) and then translates through
`01→Nula, 02→Ativa, 03→Suspensa, 04→Inapta, 08→Baixada`, passing the raw
input through unchanged when the padded code is not in the table (NULL
input stays NULL). -/
theorem claim_C5 (x : SqlStr) : situacaoCadastralField x = situacaoSpecFn x := by
  cases x with
  | none => rfl
  | some s =>
    have hpad : sqlLpad (some s) 2 '0' = some (situacaoSpecLpad s) := rfl
    unfold situacaoCadastralField situacaoSpecFn
    rw [hpad]
    show (match situacaoTable.find? (fun b => b.1 == situacaoSpecLpad s) with
          | some b => some b.2
          | none => some s) =
      (match situacaoSpecTable (situacaoSpecLpad s) with
       | some t => some t
       | none => some s)
    have hfind := situacaoTable_find (situacaoSpecLpad s)
    cases hf : situacaoTable.find? (fun b => b.1 == situacaoSpecLpad s) with
    | none =>
      have hspec : situacaoSpecTable (situacaoSpecLpad s) = none := by
        rw [← hfind, hf]; rfl
      rw [hspec]
    | some b =>
      have hspec : situacaoSpecTable (situacaoSpecLpad s) = some b.2 := by
        rw [← hfind, hf]; rfl
      rw [hspec]

/-! ## JSON values and Python json.dumps
(utils/json_cleanup_utils.py and the json stdlib semantics it relies on) -/

/-- A Python JSON value. Numbers are modelled as integers: floats are out
of the embedding's scope, and the modelled parser fails where Python would
produce a float, which routes such texts through the `except` branch of
`clean_json_spaces` unchanged. -/
inductive JVal where
  | jnull : JVal
  | jbool : Bool → JVal
  | jnum : Int → JVal
  | jstr : List Char → JVal
  | jarr : List JVal → JVal
  | jobj : List (List Char × JVal) → JVal

mutual

/-- Structural equality test on values (decidable equality, spelled out
because the nested lists block the derive handler). -/
def jvalBeq : JVal → JVal → Bool
  | .jnull, .jnull => true
  | .jbool a, .jbool b => a == b
  | .jnum a, .jnum b => a == b
  | .jstr a, .jstr b => a == b
  | .jarr a, .jarr b => jvalListBeq a b
  | .jobj a, .jobj b => jvalPairsBeq a b
  | _, _ => false

def jvalListBeq : List JVal → List JVal → Bool
  | [], [] => true
  | x :: xs, y :: ys => jvalBeq x y && jvalListBeq xs ys
  | _, _ => false

def jvalPairsBeq : List (List Char × JVal) → List (List Char × JVal) → Bool
  | [], [] => true
  | (k1, v1) :: ps, (k2, v2) :: qs => k1 == k2 && jvalBeq v1 v2 && jvalPairsBeq ps qs
  | _, _ => false

end

mutual

theorem jvalBeq_sound (a b : JVal) (h : jvalBeq a b = true) : a = b := by
  cases a <;> cases b <;>
    first
      | rfl
      | exact Bool.noConfusion h
      | exact congrArg JVal.jbool (eq_of_beq h)
      | exact congrArg JVal.jnum (eq_of_beq h)
      | exact congrArg JVal.jstr (eq_of_beq h)
      | exact congrArg JVal.jarr (jvalListBeq_sound _ _ h)
      | exact congrArg JVal.jobj (jvalPairsBeq_sound _ _ h)

theorem jvalListBeq_sound (xs ys : List JVal) (h : jvalListBeq xs ys = true) :
    xs = ys := by
  cases xs with
  | nil =>
    cases ys with
    | nil => rfl
    | cons y ys => exact Bool.noConfusion h
  | cons x xs =>
    cases ys with
    | nil => exact Bool.noConfusion h
    | cons y ys =>
      have h2 : (jvalBeq x y && jvalListBeq xs ys) = true := h
      rw [Bool.and_eq_true] at h2
      rw [jvalBeq_sound x y h2.1, jvalListBeq_sound xs ys h2.2]

theorem jvalPairsBeq_sound (ps qs : List (List Char × JVal))
    (h : jvalPairsBeq ps qs = true) : ps = qs := by
  cases ps with
  | nil =>
    cases qs with
    | nil => rfl
    | cons q qs => exact Bool.noConfusion h
  | cons p ps =>
    obtain ⟨k1, v1⟩ := p
    cases qs with
    | nil => exact Bool.noConfusion h
    | cons q qs =>
      obtain ⟨k2, v2⟩ := q
      have h2 : ((k1 == k2 && jvalBeq v1 v2) && jvalPairsBeq ps qs) = true := h
      rw [Bool.and_eq_true, Bool.and_eq_true] at h2
      rw [eq_of_beq h2.1.1, jvalBeq_sound v1 v2 h2.1.2, jvalPairsBeq_sound ps qs h2.2]

end

mutual

theorem jvalBeq_refl (a : JVal) : jvalBeq a a = true := by
  cases a with
  | jnull => rfl
  | jbool b => exact beq_self_eq_true b
  | jnum n => exact beq_self_eq_true n
  | jstr s => exact beq_self_eq_true s
  | jarr xs => exact jvalListBeq_refl xs
  | jobj kvs => exact jvalPairsBeq_refl kvs

theorem jvalListBeq_refl (xs : List JVal) : jvalListBeq xs xs = true := by
  cases xs with
  | nil => rfl
  | cons x xs =>
    show (jvalBeq x x && jvalListBeq xs xs) = true
    rw [jvalBeq_refl x, jvalListBeq_refl xs]
    rfl

theorem jvalPairsBeq_refl (ps : List (List Char × JVal)) :
    jvalPairsBeq ps ps = true := by
  cases ps with
  | nil => rfl
  | cons p ps =>
    obtain ⟨k, v⟩ := p
    show ((k == k && jvalBeq v v) && jvalPairsBeq ps ps) = true
    rw [beq_self_eq_true, jvalBeq_refl v, jvalPairsBeq_refl ps]
    rfl

end

instance : DecidableEq JVal := fun a b =>
  if h : jvalBeq a b = true then isTrue (jvalBeq_sound a b h)
  else isFalse (fun he => h (by rw [he]; exact jvalBeq_refl b))

/-- Fuel-driven worker for decimal rendering: with fuel exceeding the number
this computes the decimal digits, most significant first. -/
def natToDigitsGo (fuel : Nat) (n : Nat) : List Char :=
  match fuel with
  | 0 => []
  | fuel + 1 =>
    if n < 10 then [Char.ofNat (48 + n)]
    else natToDigitsGo fuel (n / 10) ++ [Char.ofNat (48 + n % 10)]

/-- Decimal digits of a natural number, most significant first. -/
def natToDigits (n : Nat) : List Char := natToDigitsGo (n + 1) n

theorem natToDigitsGo_fuel (n : Nat) : ∀ f1 f2, n < f1 → n < f2 →
    natToDigitsGo f1 n = natToDigitsGo f2 n := by
  induction n using Nat.strong_induction_on with
  | _ n ih =>
    intro f1 f2 h1 h2
    match f1, f2 with
    | g1 + 1, g2 + 1 =>
      show (if n < 10 then _ else natToDigitsGo g1 (n / 10) ++ _) =
        (if n < 10 then _ else natToDigitsGo g2 (n / 10) ++ _)
      by_cases h : n < 10
      · rw [if_pos h, if_pos h]
      · rw [if_neg h, if_neg h,
          ih (n / 10) (Nat.div_lt_self (by omega) (by omega)) g1 g2
            (by omega) (by omega)]

theorem natToDigits_eq (n : Nat) : natToDigits n =
    if n < 10 then [Char.ofNat (48 + n)]
    else natToDigits (n / 10) ++ [Char.ofNat (48 + n % 10)] := by
  show (if n < 10 then _ else natToDigitsGo n (n / 10) ++ _) = _
  by_cases h : n < 10
  · rw [if_pos h, if_pos h]
  · rw [if_neg h, if_neg h, natToDigitsGo_fuel (n / 10) n (n / 10 + 1)
      (by omega) (by omega)]
    rfl

/-- Python `repr` of an `int`. -/
def intRepr (n : Int) : List Char :=
  if n < 0 then '-' :: natToDigits (-n).toNat else natToDigits n.toNat

/-- Lowercase hexadecimal digit, as `'\u%04x' % code` produces. -/
def hexDigitLower (m : Nat) : Char :=
  if m < 10 then Char.ofNat (48 + m) else Char.ofNat (87 + m)

/-- Per-character escaping of the `ensure_ascii=False` encoder: only the
backslash, the double quote and the C0 control characters are escaped, the
latter with the two-character shorthands where they exist and `\u00xx`
otherwise. -/
def escapeChar (c : Char) : List Char :=
  if c = '"' then ['\\', '"']
  else if c = '\\' then ['\\', '\\']
  else if c = '\n' then ['\\', 'n']
  else if c = '\r' then ['\\', 'r']
  else if c = '\t' then ['\\', 't']
  else if c.toNat = 8 then ['\\', 'b']
  else if c.toNat = 12 then ['\\', 'f']
  else if c.toNat < 32 then
    ['\\', 'u', '0', '0', hexDigitLower (c.toNat / 16), hexDigitLower (c.toNat % 16)]
  else [c]

def escapeStr (s : List Char) : List Char := s.flatMap escapeChar

mutual

/-- `json.dumps(v, ensure_ascii=False, separators=(",", ":"))`: compact
serialization with no inter-token whitespace, keys in dictionary order. -/
def dumps : JVal → List Char
  | .jnull => ['n', 'u', 'l', 'l']
  | .jbool true => ['t', 'r', 'u', 'e']
  | .jbool false => ['f', 'a', 'l', 's', 'e']
  | .jnum n => intRepr n
  | .jstr s => '"' :: (escapeStr s ++ ['"'])
  | .jarr xs => '[' :: (dumpsArr xs ++ [']'])
  | .jobj kvs => '{' :: (dumpsObj kvs ++ ['}'])

/-- Comma-joined array elements. -/
def dumpsArr : List JVal → List Char
  | [] => []
  | [x] => dumps x
  | x :: y :: rest => dumps x ++ ',' :: dumpsArr (y :: rest)

/-- Comma-joined `"key":value` members. -/
def dumpsObj : List (List Char × JVal) → List Char
  | [] => []
  | [(k, v)] => '"' :: (escapeStr k ++ '"' :: ':' :: dumps v)
  | (k, v) :: p :: rest =>
      ('"' :: (escapeStr k ++ '"' :: ':' :: dumps v)) ++ ',' :: dumpsObj (p :: rest)

end

/-! ## JsonCleanupUtils.normalize_spaces -/

/-- `re.sub(r"\s+", " ", t)` written as a single pass: the flag records
whether the previous character belonged to a whitespace run that has
already emitted its single replacement space. -/
def collapseAux : Bool → List Char → List Char
  | _, [] => []
  | inRun, c :: rest =>
    if isPySpace c then
      if inRun then collapseAux true rest else ' ' :: collapseAux true rest
    else c :: collapseAux false rest

/-- `str.strip()`: drop Unicode whitespace from both ends. -/
def pyStrip (s : List Char) : List Char :=
  ((s.dropWhile isPySpace).reverse.dropWhile isPySpace).reverse

/-- `JsonCleanupUtils.normalize_spaces`: empty input maps to the empty
string, otherwise strip then collapse every whitespace run to one space. -/
def normalizeSpaces (s : List Char) : List Char :=
  if s.isEmpty then [] else collapseAux false (pyStrip s)

mutual

/-- `JsonCleanupUtils._clean_element`: normalize string leaves, rebuild
dicts with untouched keys in order, rebuild lists in order, and leave
numbers, booleans and null untouched. -/
def cleanElement : JVal → JVal
  | .jobj kvs => .jobj (cleanPairs kvs)
  | .jarr xs => .jarr (cleanList xs)
  | .jstr s => .jstr (normalizeSpaces s)
  | .jnull => .jnull
  | .jbool b => .jbool b
  | .jnum n => .jnum n

def cleanList : List JVal → List JVal
  | [] => []
  | x :: xs => cleanElement x :: cleanList xs

def cleanPairs : List (List Char × JVal) → List (List Char × JVal)
  | [] => []
  | (k, v) :: rest => (k, cleanElement v) :: cleanPairs rest

end

/-! ## Python json.loads (the scanner restricted to integer numerals) -/

/-- JSON inter-token whitespace accepted by the scanner. -/
def isJsonWs (c : Char) : Bool := c = ' ' || c = '\t' || c = '\n' || c = '\r'

def skipWs (s : List Char) : List Char := s.dropWhile isJsonWs

/-- Hexadecimal digit value (both cases, as `\uXXXX` accepts). -/
def hexVal (c : Char) : Option Nat :=
  if '0' ≤ c ∧ c ≤ '9' then some (c.toNat - 48)
  else if 'a' ≤ c ∧ c ≤ 'f' then some (c.toNat - 87)
  else if 'A' ≤ c ∧ c ≤ 'F' then some (c.toNat - 55)
  else none

/-!
The string scanner, after the opening quote: strict mode rejects raw
control characters; escapes cover the eight shorthands and `\uXXXX`,
combining surrogate pairs into one scalar. A lone surrogate, which would
produce a Python string with no Unicode-scalar representation, is outside
the embedding and fails. The scanner mode records whether a backslash was
just consumed.
-/

mutual

def parseStrScan : Bool → List Char → Option (List Char × List Char)
  | false, [] => none
  | false, c :: rest =>
    if c = '"' then some ([], rest)
    else if c = '\\' then parseStrScan true rest
    else if c.toNat < 32 then none
    else (parseStrScan false rest).map (fun p => (c :: p.1, p.2))
  | true, '"' :: rest => (parseStrScan false rest).map (fun p => ('"' :: p.1, p.2))
  | true, '\\' :: rest => (parseStrScan false rest).map (fun p => ('\\' :: p.1, p.2))
  | true, '/' :: rest => (parseStrScan false rest).map (fun p => ('/' :: p.1, p.2))
  | true, 'b' :: rest => (parseStrScan false rest).map (fun p => (Char.ofNat 8 :: p.1, p.2))
  | true, 'f' :: rest => (parseStrScan false rest).map (fun p => (Char.ofNat 12 :: p.1, p.2))
  | true, 'n' :: rest => (parseStrScan false rest).map (fun p => ('\n' :: p.1, p.2))
  | true, 'r' :: rest => (parseStrScan false rest).map (fun p => ('\r' :: p.1, p.2))
  | true, 't' :: rest => (parseStrScan false rest).map (fun p => ('\t' :: p.1, p.2))
  | true, 'u' :: h1 :: h2 :: h3 :: h4 :: rest =>
    if (hexVal h1).isSome && (hexVal h2).isSome && (hexVal h3).isSome && (hexVal h4).isSome then
      if 0xd800 ≤ 4096 * (hexVal h1).getD 0 + 256 * (hexVal h2).getD 0 +
           16 * (hexVal h3).getD 0 + (hexVal h4).getD 0 ∧
         4096 * (hexVal h1).getD 0 + 256 * (hexVal h2).getD 0 +
           16 * (hexVal h3).getD 0 + (hexVal h4).getD 0 ≤ 0xdbff then
        parseStrSurr (4096 * (hexVal h1).getD 0 + 256 * (hexVal h2).getD 0 +
          16 * (hexVal h3).getD 0 + (hexVal h4).getD 0) rest
      else if 0xdc00 ≤ 4096 * (hexVal h1).getD 0 + 256 * (hexVal h2).getD 0 +
                16 * (hexVal h3).getD 0 + (hexVal h4).getD 0 ∧
              4096 * (hexVal h1).getD 0 + 256 * (hexVal h2).getD 0 +
                16 * (hexVal h3).getD 0 + (hexVal h4).getD 0 ≤ 0xdfff then none
      else (parseStrScan false rest).map (fun p =>
        (Char.ofNat (4096 * (hexVal h1).getD 0 + 256 * (hexVal h2).getD 0 +
          16 * (hexVal h3).getD 0 + (hexVal h4).getD 0) :: p.1, p.2))
    else none
  | true, _ => none

/-- After a high surrogate `\uXXXX`, Python combines a following low
surrogate escape into one astral scalar; anything else would leave a lone
surrogate in the Python string, which has no Unicode-scalar model here. -/
def parseStrSurr (m : Nat) : List Char → Option (List Char × List Char)
  | '\\' :: 'u' :: g1 :: g2 :: g3 :: g4 :: rest4 =>
    if (hexVal g1).isSome && (hexVal g2).isSome && (hexVal g3).isSome && (hexVal g4).isSome then
      if 0xdc00 ≤ 4096 * (hexVal g1).getD 0 + 256 * (hexVal g2).getD 0 +
           16 * (hexVal g3).getD 0 + (hexVal g4).getD 0 ∧
         4096 * (hexVal g1).getD 0 + 256 * (hexVal g2).getD 0 +
           16 * (hexVal g3).getD 0 + (hexVal g4).getD 0 ≤ 0xdfff then
        (parseStrScan false rest4).map (fun p =>
          (Char.ofNat (0x10000 + (m - 0xd800) * 1024 +
            (4096 * (hexVal g1).getD 0 + 256 * (hexVal g2).getD 0 +
              16 * (hexVal g3).getD 0 + (hexVal g4).getD 0 - 0xdc00)) :: p.1, p.2))
      else none
    else none
  | _ => none

end

/-- The string scanner entry point, after the opening quote. -/
def parseStrChars (s : List Char) : Option (List Char × List Char) :=
  parseStrScan false s

/-- The integer part of the scanner's NUMBER_RE: `0` or `[1-9][0-9]*`. -/
def parseDigitsRun : List Char → Option (List Char × List Char)
  | [] => none
  | c :: rest =>
    if c = '0' then some (['0'], rest)
    else if isAsciiDigitCh c then
      some (c :: rest.takeWhile isAsciiDigitCh, rest.dropWhile isAsciiDigitCh)
    else none

def digitsToNat (ds : List Char) : Nat :=
  ds.foldl (fun a c => 10 * a + (c.toNat - 48)) 0

/-- Digits part of a number token: a following `.`, `e` or `E` means
Python would build a float, which the integer-only embedding rejects. -/
def parseNumCore (neg : Bool) (t : List Char) : Option (Int × List Char) :=
  match parseDigitsRun t with
  | none => none
  | some (ds, r) =>
    match r with
    | c :: _ =>
      if c = '.' || c = 'e' || c = 'E' then none
      else some (if neg then -(digitsToNat ds : Int) else (digitsToNat ds : Int), r)
    | [] => some (if neg then -(digitsToNat ds : Int) else (digitsToNat ds : Int), [])

/-- Number token: optional minus then integer digits. -/
def parseNumTok (s : List Char) : Option (Int × List Char) :=
  match s with
  | '-' :: rest => parseNumCore true rest
  | _ => parseNumCore false s

/-- `dict(pairs)` semantics: a repeated key keeps its first position and
takes its last value. -/
def upsertPair (acc : List (List Char × JVal)) (kv : List Char × JVal) :
    List (List Char × JVal) :=
  if acc.any (fun p => p.1 == kv.1) then
    acc.map (fun p => if p.1 == kv.1 then (p.1, kv.2) else p)
  else acc ++ [kv]

def dedupPairs (kvs : List (List Char × JVal)) : List (List Char × JVal) :=
  kvs.foldl upsertPair []

mutual

/-- One scanned value, fuel-driven (the top level supplies ample fuel);
the branch conditions mirror the scanner's sequential first-character
tests. -/
def parseVal : Nat → List Char → Option (JVal × List Char)
  | 0, _ => none
  | fuel + 1, s =>
    match skipWs s with
    | [] => none
    | c :: rest =>
      if c = '"' then (parseStrChars rest).map (fun p => (JVal.jstr p.1, p.2))
      else if c = '{' then
        match skipWs rest with
        | c2 :: r2 =>
          if c2 = '}' then some (JVal.jobj [], r2)
          else (parseObjItems fuel (c2 :: r2)).map
            (fun p => (JVal.jobj (dedupPairs p.1), p.2))
        | [] => none
      else if c = '[' then
        match skipWs rest with
        | c2 :: r2 =>
          if c2 = ']' then some (JVal.jarr [], r2)
          else (parseArrItems fuel (c2 :: r2)).map (fun p => (JVal.jarr p.1, p.2))
        | [] => none
      else if c = 't' then
        match rest with
        | 'r' :: 'u' :: 'e' :: r => some (JVal.jbool true, r)
        | _ => none
      else if c = 'f' then
        match rest with
        | 'a' :: 'l' :: 's' :: 'e' :: r => some (JVal.jbool false, r)
        | _ => none
      else if c = 'n' then
        match rest with
        | 'u' :: 'l' :: 'l' :: r => some (JVal.jnull, r)
        | _ => none
      else (parseNumTok (c :: rest)).map (fun p => (JVal.jnum p.1, p.2))

/-- The scanned members of a non-empty array, up to and including `]`. -/
def parseArrItems : Nat → List Char → Option (List JVal × List Char)
  | 0, _ => none
  | fuel + 1, s =>
    match parseVal fuel s with
    | none => none
    | some (v, r1) =>
      match skipWs r1 with
      | ',' :: r2 => (parseArrItems fuel r2).map (fun p => (v :: p.1, p.2))
      | ']' :: r2 => some ([v], r2)
      | _ => none

/-- The scanned members of a non-empty object, up to and including `}`;
the caller has already skipped whitespace before the key. -/
def parseObjItems : Nat → List Char → Option (List (List Char × JVal) × List Char)
  | 0, _ => none
  | fuel + 1, s =>
    match s with
    | '"' :: r0 =>
      match parseStrChars r0 with
      | none => none
      | some (k, r1) =>
        match skipWs r1 with
        | ':' :: r2 =>
          match parseVal fuel r2 with
          | none => none
          | some (v, r3) =>
            match skipWs r3 with
            | ',' :: r4 =>
              (parseObjItems fuel (skipWs r4)).map (fun p => ((k, v) :: p.1, p.2))
            | '}' :: r4 => some ([(k, v)], r4)
            | _ => none
        | _ => none
    | _ => none

end

/-- `json.loads`: scan one value with ample fuel, then require only
whitespace to remain. -/
def pyLoads (s : List Char) : Option JVal :=
  match parseVal (2 * s.length + 2) s with
  | some (v, r) => if (skipWs r).isEmpty then some v else none
  | none => none

/-- `JsonCleanupUtils.clean_json_spaces`: parse, clean, re-serialize;
return the input unchanged when parsing fails. -/
def cleanJsonSpaces (s : List Char) : List Char :=
  match pyLoads s with
  | some v => dumps (cleanElement v)
  | none => s

/-! ## Idempotence machinery for normalize_spaces -/

/-- First character, if any, is not whitespace. -/
def headOk : List Char → Bool
  | [] => true
  | c :: _ => !isPySpace c

/-- Last character, if any, is not whitespace. -/
def lastOk : List Char → Bool
  | [] => true
  | [c] => !isPySpace c
  | _ :: d :: rest => lastOk (d :: rest)

/-- Every whitespace character is a single `' '` not followed by
whitespace. -/
def wellSpaced : List Char → Bool
  | [] => true
  | c :: rest =>
    (if isPySpace c then (c == ' ') && headOk rest else true) && wellSpaced rest

theorem collapseAux_true_headOk (t : List Char) :
    headOk (collapseAux true t) = true := by
  induction t with
  | nil => rfl
  | cons c rest ih =>
    by_cases h : isPySpace c = true
    · simpa [collapseAux, h] using ih
    · simp [collapseAux, h, headOk]

theorem wellSpaced_collapseAux (t : List Char) :
    ∀ b, wellSpaced (collapseAux b t) = true := by
  induction t with
  | nil => intro b; rfl
  | cons c rest ih =>
    intro b
    by_cases h : isPySpace c = true
    · cases b with
      | true => simpa [collapseAux, h] using ih true
      | false =>
        simp only [collapseAux, h, if_pos, if_true, Bool.false_eq_true, if_false]
        simp only [wellSpaced]
        have hsp : isPySpace ' ' = true := by decide
        rw [hsp]
        simp [collapseAux_true_headOk, ih true]
    · simp only [collapseAux, h, if_false, Bool.false_eq_true]
      simp only [wellSpaced, h, if_false, Bool.false_eq_true]
      simp [ih false]

theorem collapseAux_false_of_wellSpaced (t : List Char)
    (h : wellSpaced t = true) : collapseAux false t = t := by
  induction t with
  | nil => rfl
  | cons c rest ih =>
    simp only [wellSpaced, Bool.and_eq_true] at h
    by_cases hsp : isPySpace c = true
    · rw [if_pos hsp] at h
      have hc : c = ' ' := by
        have := h.1
        simp only [Bool.and_eq_true, beq_iff_eq] at this
        exact this.1
      have hho : headOk rest = true := by
        have := h.1
        simp only [Bool.and_eq_true] at this
        exact this.2
      simp only [collapseAux, hsp, if_true, Bool.false_eq_true, if_false]
      cases rest with
      | nil => simp [collapseAux, hc]
      | cons d r =>
        have hd : isPySpace d = false := by
          simp only [headOk, Bool.not_eq_true'] at hho
          exact hho
        have hrest := ih h.2
        simp only [collapseAux, hd, Bool.false_eq_true, if_false] at hrest ⊢
        rw [hc]
        exact congrArg _ hrest
    · have hrest := ih h.2
      simp only [collapseAux, hsp, Bool.false_eq_true, if_false]
      rw [hrest]

theorem collapseAux_false_headOk {t : List Char} (h : headOk t = true) :
    headOk (collapseAux false t) = true := by
  cases t with
  | nil => rfl
  | cons c rest =>
    simp only [headOk, Bool.not_eq_true'] at h
    simp [collapseAux, h, headOk]

theorem collapseAux_false_ne_nil (c : Char) (rest : List Char) :
    collapseAux false (c :: rest) ≠ [] := by
  by_cases h : isPySpace c = true <;> simp [collapseAux, h]

theorem collapseAux_true_eq_nil_iff (t : List Char) :
    collapseAux true t = [] ↔ t.all isPySpace = true := by
  induction t with
  | nil => simp [collapseAux]
  | cons c rest ih =>
    by_cases h : isPySpace c = true
    · simp [collapseAux, h, ih]
    · simp [collapseAux, h]

theorem lastOk_cons_of_ne_nil {rest : List Char} (c : Char) (h : rest ≠ []) :
    lastOk (c :: rest) = lastOk rest := by
  cases rest with
  | nil => exact absurd rfl h
  | cons d r => rfl

theorem lastOk_all_spaces {t : List Char} (hne : t ≠ [])
    (hall : t.all isPySpace = true) : lastOk t = false := by
  induction t with
  | nil => exact absurd rfl hne
  | cons c rest ih =>
    simp only [List.all_cons, Bool.and_eq_true] at hall
    cases rest with
    | nil =>
      simp [lastOk, hall.1]
    | cons d r =>
      rw [lastOk_cons_of_ne_nil c (by simp)]
      exact ih (by simp) hall.2

theorem collapseAux_false_cons_sp {c : Char} (h : isPySpace c = true)
    (rest : List Char) : collapseAux false (c :: rest) = ' ' :: collapseAux true rest := by
  simp [collapseAux, h]

theorem collapseAux_true_cons_sp {c : Char} (h : isPySpace c = true)
    (rest : List Char) : collapseAux true (c :: rest) = collapseAux true rest := by
  simp [collapseAux, h]

theorem collapseAux_cons_nonsp {c : Char} (h : isPySpace c = false)
    (b : Bool) (rest : List Char) :
    collapseAux b (c :: rest) = c :: collapseAux false rest := by
  cases b <;> simp [collapseAux, h]

theorem collapseAux_lastOk (t : List Char) (hl : lastOk t = true) :
    ∀ b, lastOk (collapseAux b t) = true := by
  induction t with
  | nil => intro b; rfl
  | cons c rest ih =>
    intro b
    cases rest with
    | nil =>
      have hc : isPySpace c = false := by
        simp only [lastOk, Bool.not_eq_true'] at hl
        exact hl
      rw [collapseAux_cons_nonsp hc b]
      simp [collapseAux, lastOk, hc]
    | cons d r =>
      rw [lastOk_cons_of_ne_nil c (by simp)] at hl
      by_cases h : isPySpace c = true
      · cases b with
        | true =>
          rw [collapseAux_true_cons_sp h]
          exact ih hl true
        | false =>
          rw [collapseAux_false_cons_sp h]
          have hne : collapseAux true (d :: r) ≠ [] := by
            intro hnil
            have hall := (collapseAux_true_eq_nil_iff (d :: r)).mp hnil
            have hlf := lastOk_all_spaces (by simp) hall
            rw [hl] at hlf
            cases hlf
          rw [lastOk_cons_of_ne_nil ' ' hne]
          exact ih hl true
      · rw [collapseAux_cons_nonsp (Bool.not_eq_true _ ▸ (by simpa using h)) b]
        rw [lastOk_cons_of_ne_nil c (collapseAux_false_ne_nil d r)]
        exact ih hl false

theorem headOk_append_ne_nil {xs : List Char} (ys : List Char) (h : xs ≠ []) :
    headOk (xs ++ ys) = headOk xs := by
  cases xs with
  | nil => exact absurd rfl h
  | cons c rest => rfl

theorem lastOk_eq_headOk_reverse (t : List Char) :
    lastOk t = headOk t.reverse := by
  induction t with
  | nil => rfl
  | cons c rest ih =>
    cases rest with
    | nil => rfl
    | cons d r =>
      rw [lastOk_cons_of_ne_nil c (by simp)]
      rw [List.reverse_cons]
      rw [headOk_append_ne_nil [c] (by simp)]
      exact ih

theorem headOk_dropWhile (t : List Char) :
    headOk (t.dropWhile isPySpace) = true := by
  induction t with
  | nil => rfl
  | cons c rest ih =>
    by_cases h : isPySpace c = true
    · simpa [List.dropWhile_cons, h] using ih
    · simp [List.dropWhile_cons, h, headOk]

theorem headOk_of_prefix {x u : List Char} (hp : x <+: u) (h : headOk u = true) :
    headOk x = true := by
  cases x with
  | nil => rfl
  | cons c rest =>
    obtain ⟨tail, htail⟩ := hp
    cases u with
    | nil => cases htail
    | cons d r =>
      have : c = d := by
        have := htail
        simp only [List.cons_append] at this
        exact (List.cons.injEq _ _ _ _ ▸ this).1
      subst this
      exact h

theorem dropWhile_of_headOk {t : List Char} (h : headOk t = true) :
    t.dropWhile isPySpace = t := by
  cases t with
  | nil => rfl
  | cons c rest =>
    simp only [headOk, Bool.not_eq_true'] at h
    simp [List.dropWhile_cons, h]

theorem pyStrip_headOk (s : List Char) : headOk (pyStrip s) = true := by
  unfold pyStrip
  have h1 : List.dropWhile isPySpace (s.dropWhile isPySpace).reverse <:+
      (s.dropWhile isPySpace).reverse := List.dropWhile_suffix _
  have h2 := List.reverse_prefix.mpr h1
  rw [List.reverse_reverse] at h2
  exact headOk_of_prefix h2 (headOk_dropWhile s)

theorem pyStrip_lastOk (s : List Char) : lastOk (pyStrip s) = true := by
  unfold pyStrip
  rw [lastOk_eq_headOk_reverse, List.reverse_reverse]
  exact headOk_dropWhile _

theorem pyStrip_of_ok {t : List Char} (hh : headOk t = true) (hl : lastOk t = true) :
    pyStrip t = t := by
  unfold pyStrip
  rw [dropWhile_of_headOk hh]
  rw [lastOk_eq_headOk_reverse] at hl
  rw [dropWhile_of_headOk hl, List.reverse_reverse]

/-- `normalize_spaces` is idempotent. -/
theorem normalizeSpaces_idem (s : List Char) :
    normalizeSpaces (normalizeSpaces s) = normalizeSpaces s := by
  unfold normalizeSpaces
  by_cases hs : s.isEmpty = true
  · simp [hs]
  · rw [if_neg hs]
    by_cases ht : (collapseAux false (pyStrip s)).isEmpty = true
    · rw [if_pos ht]
      exact ((List.isEmpty_iff).mp ht).symm
    · rw [if_neg ht]
      have hh : headOk (collapseAux false (pyStrip s)) = true :=
        collapseAux_false_headOk (pyStrip_headOk s)
      have hl : lastOk (collapseAux false (pyStrip s)) = true :=
        collapseAux_lastOk (pyStrip s) (pyStrip_lastOk s) false
      rw [pyStrip_of_ok hh hl]
      exact collapseAux_false_of_wellSpaced _ (wellSpaced_collapseAux (pyStrip s) false)

/-! ## Round trip: numerals -/

theorem char_toNat_ofNat {n : Nat} (h : n.isValidChar) :
    (Char.ofNat n).toNat = n := by
  rw [Char.ofNat, dif_pos h]
  rfl

theorem valid_of_lt_d800 {n : Nat} (h : n < 0xd800) : n.isValidChar := Or.inl h

theorem natToDigits_ne_nil (n : Nat) : natToDigits n ≠ [] := by
  rw [natToDigits_eq]
  split
  · simp
  · simp

theorem natToDigits_all_digit (n : Nat) :
    ∀ c ∈ natToDigits n, isAsciiDigitCh c = true := by
  induction n using Nat.strong_induction_on with
  | _ n ih =>
    rw [natToDigits_eq]
    split
    · intro c hc
      simp only [List.mem_singleton] at hc
      subst hc
      unfold isAsciiDigitCh
      rw [char_toNat_ofNat (valid_of_lt_d800 (by omega))]
      simp only [Bool.and_eq_true, decide_eq_true_eq]
      omega
    · intro c hc
      rw [List.mem_append] at hc
      rcases hc with hc | hc
      · exact ih (n / 10) (Nat.div_lt_self (by omega) (by omega)) c hc
      · simp only [List.mem_singleton] at hc
        subst hc
        unfold isAsciiDigitCh
        rw [char_toNat_ofNat (valid_of_lt_d800 (by omega))]
        simp only [Bool.and_eq_true, decide_eq_true_eq]
        have := Nat.mod_lt n (show 0 < 10 by omega)
        omega

theorem natToDigits_head_ne_zero {n : Nat} (h : n ≠ 0) :
    ∀ c cs, natToDigits n = c :: cs → c ≠ '0' := by
  induction n using Nat.strong_induction_on with
  | _ n ih =>
    rw [natToDigits_eq]
    split
    · intro c cs hc
      simp only [List.cons.injEq] at hc
      intro hzero
      subst hzero
      have hcn := congrArg Char.toNat hc.1
      rw [char_toNat_ofNat (valid_of_lt_d800 (by omega))] at hcn
      have hz : ('0').toNat = 48 := rfl
      omega
    · intro c cs hc hzero
      subst hzero
      have hne := natToDigits_ne_nil (n / 10)
      match hnd : natToDigits (n / 10) with
      | [] => exact hne hnd
      | d :: ds =>
        rw [hnd] at hc
        simp only [List.cons_append, List.cons.injEq] at hc
        have hd0 : n / 10 ≠ 0 := by
          intro hq
          rename_i hge
          rw [Nat.div_eq_zero_iff (by omega)] at hq
          omega
        exact ih (n / 10) (Nat.div_lt_self (by omega) (by omega)) hd0 d ds hnd hc.1

theorem digitsToNat_append_one (ds : List Char) (d : Char) :
    digitsToNat (ds ++ [d]) = 10 * digitsToNat ds + (d.toNat - 48) := by
  unfold digitsToNat
  rw [List.foldl_append]
  rfl

theorem digitsToNat_natToDigits (n : Nat) : digitsToNat (natToDigits n) = n := by
  induction n using Nat.strong_induction_on with
  | _ n ih =>
    rw [natToDigits_eq]
    split
    · show digitsToNat [Char.ofNat (48 + n)] = n
      unfold digitsToNat
      simp only [List.foldl_cons, List.foldl_nil]
      rw [char_toNat_ofNat (valid_of_lt_d800 (by omega))]
      omega
    · rw [digitsToNat_append_one]
      rw [ih (n / 10) (Nat.div_lt_self (by omega) (by omega))]
      rw [char_toNat_ofNat (valid_of_lt_d800 (by omega))]
      have := Nat.div_add_mod n 10
      omega

/-- No following character that could extend a numeral token. -/
def numSafe : List Char → Bool
  | [] => true
  | c :: _ => !(isAsciiDigitCh c || c = '.' || c = 'e' || c = 'E')

theorem takeWhile_append_all {p : Char → Bool} {l₁ : List Char} (l₂ : List Char)
    (h : ∀ c ∈ l₁, p c = true) :
    (l₁ ++ l₂).takeWhile p = l₁ ++ l₂.takeWhile p := by
  induction l₁ with
  | nil => rfl
  | cons c rest ih =>
    rw [List.cons_append, List.takeWhile_cons,
      if_pos (h c (List.mem_cons_self c rest))]
    rw [ih (fun x hx => h x (List.mem_cons_of_mem c hx))]
    rfl

theorem dropWhile_append_all {p : Char → Bool} {l₁ : List Char} (l₂ : List Char)
    (h : ∀ c ∈ l₁, p c = true) :
    (l₁ ++ l₂).dropWhile p = l₂.dropWhile p := by
  induction l₁ with
  | nil => rfl
  | cons c rest ih =>
    rw [List.cons_append, List.dropWhile_cons,
      if_pos (h c (List.mem_cons_self c rest))]
    exact ih (fun x hx => h x (List.mem_cons_of_mem c hx))

theorem numSafe_parts {c : Char} {rr : List Char} (hsafe : numSafe (c :: rr) = true) :
    isAsciiDigitCh c = false ∧ decide (c = '.') = false ∧
    decide (c = 'e') = false ∧ decide (c = 'E') = false := by
  unfold numSafe at hsafe
  simp only [Bool.not_eq_true', Bool.or_eq_false_iff] at hsafe
  exact ⟨hsafe.1.1.1, hsafe.1.1.2, hsafe.1.2, hsafe.2⟩

theorem takeWhile_numSafe {rest : List Char} (h : numSafe rest = true) :
    rest.takeWhile isAsciiDigitCh = [] := by
  cases rest with
  | nil => rfl
  | cons c r =>
    rw [List.takeWhile_cons, if_neg (by rw [(numSafe_parts h).1]; simp)]

theorem dropWhile_numSafe {rest : List Char} (h : numSafe rest = true) :
    rest.dropWhile isAsciiDigitCh = rest := by
  cases rest with
  | nil => rfl
  | cons c r =>
    rw [List.dropWhile_cons, if_neg (by rw [(numSafe_parts h).1]; simp)]

theorem parseDigitsRun_natToDigits (n : Nat) (rest : List Char)
    (hsafe : numSafe rest = true) :
    parseDigitsRun (natToDigits n ++ rest) = some (natToDigits n, rest) := by
  by_cases h0 : n = 0
  · subst h0
    have h00 : natToDigits 0 = ['0'] := by
      rw [natToDigits_eq]
      rw [if_pos (by omega)]
    rw [h00]
    rfl
  · have hne := natToDigits_ne_nil n
    match hnd : natToDigits n with
    | [] => exact absurd hnd hne
    | c :: cs =>
      have hc0 : c ≠ '0' := natToDigits_head_ne_zero h0 c cs hnd
      have hcd : isAsciiDigitCh c = true :=
        natToDigits_all_digit n c (by rw [hnd]; exact List.mem_cons_self c cs)
      have hcsd : ∀ x ∈ cs, isAsciiDigitCh x = true := by
        intro x hx
        exact natToDigits_all_digit n x (by rw [hnd]; exact List.mem_cons_of_mem c hx)
      rw [List.cons_append]
      show (if c = '0' then some ((['0'] : List Char), cs ++ rest)
        else if isAsciiDigitCh c = true then
          some (c :: List.takeWhile isAsciiDigitCh (cs ++ rest),
            List.dropWhile isAsciiDigitCh (cs ++ rest))
        else none) = some (c :: cs, rest)
      rw [if_neg hc0, if_pos hcd]
      rw [takeWhile_append_all rest hcsd, takeWhile_numSafe hsafe,
        dropWhile_append_all rest hcsd, dropWhile_numSafe hsafe]
      simp

theorem parseNumCore_natToDigits (neg : Bool) (m : Nat) (rest : List Char)
    (hsafe : numSafe rest = true) :
    parseNumCore neg (natToDigits m ++ rest) =
      some (if neg then -(m : Int) else (m : Int), rest) := by
  unfold parseNumCore
  rw [parseDigitsRun_natToDigits m rest hsafe]
  cases rest with
  | nil => simp [digitsToNat_natToDigits]
  | cons c rr =>
    have hp := numSafe_parts hsafe
    show (if (decide (c = '.') || decide (c = 'e') || decide (c = 'E')) = true
      then none
      else some (if neg then -(digitsToNat (natToDigits m) : Int)
        else (digitsToNat (natToDigits m) : Int), c :: rr)) =
      some (if neg then -(m : Int) else (m : Int), c :: rr)
    rw [if_neg (by rw [hp.2.1, hp.2.2.1, hp.2.2.2]; simp)]
    rw [digitsToNat_natToDigits]

theorem parseNumTok_intRepr (n : Int) (rest : List Char)
    (hsafe : numSafe rest = true) :
    parseNumTok (intRepr n ++ rest) = some (n, rest) := by
  unfold intRepr
  by_cases hn : n < 0
  · rw [if_pos hn, List.cons_append]
    show parseNumCore true (natToDigits (-n).toNat ++ rest) = some (n, rest)
    rw [parseNumCore_natToDigits true (-n).toNat rest hsafe]
    have hval : -(((-n).toNat : Nat) : Int) = n := by omega
    simp only [reduceIte]
    rw [hval]
  · rw [if_neg hn]
    have hne := natToDigits_ne_nil n.toNat
    match hnd : natToDigits n.toNat with
    | [] => exact absurd hnd hne
    | c :: cs =>
      have hcd : isAsciiDigitCh c = true :=
        natToDigits_all_digit _ c (by rw [hnd]; exact List.mem_cons_self c cs)
      have hcm : c ≠ '-' := by
        intro hdash
        subst hdash
        simp [isAsciiDigitCh] at hcd
      rw [List.cons_append]
      unfold parseNumTok
      split
      · rename_i heq
        exfalso
        simp only [List.cons.injEq] at heq
        exact hcm heq.1
      · rw [show (c :: (cs ++ rest) : List Char) = natToDigits n.toNat ++ rest by
          rw [hnd]; rw [List.cons_append]]
        rw [parseNumCore_natToDigits false n.toNat rest hsafe]
        have hval : ((n.toNat : Nat) : Int) = n := by omega
        rw [hval]
        rw [if_neg Bool.false_ne_true]

/-! ## Round trip: strings -/

theorem hexVal_hexDigitLower {m : Nat} (h : m < 16) :
    hexVal (hexDigitLower m) = some m := by
  interval_cases m <;> decide

theorem parseStr_esc_quote (tail : List Char) :
    parseStrChars ('\\' :: '"' :: tail) =
      (parseStrChars tail).map (fun p => ('"' :: p.1, p.2)) := rfl

theorem parseStr_esc_backslash (tail : List Char) :
    parseStrChars ('\\' :: '\\' :: tail) =
      (parseStrChars tail).map (fun p => ('\\' :: p.1, p.2)) := rfl

theorem parseStr_esc_n (tail : List Char) :
    parseStrChars ('\\' :: 'n' :: tail) =
      (parseStrChars tail).map (fun p => ('\n' :: p.1, p.2)) := rfl

theorem parseStr_esc_r (tail : List Char) :
    parseStrChars ('\\' :: 'r' :: tail) =
      (parseStrChars tail).map (fun p => ('\r' :: p.1, p.2)) := rfl

theorem parseStr_esc_t (tail : List Char) :
    parseStrChars ('\\' :: 't' :: tail) =
      (parseStrChars tail).map (fun p => ('\t' :: p.1, p.2)) := rfl

theorem parseStr_esc_b (tail : List Char) :
    parseStrChars ('\\' :: 'b' :: tail) =
      (parseStrChars tail).map (fun p => (Char.ofNat 8 :: p.1, p.2)) := rfl

theorem parseStr_esc_f (tail : List Char) :
    parseStrChars ('\\' :: 'f' :: tail) =
      (parseStrChars tail).map (fun p => (Char.ofNat 12 :: p.1, p.2)) := rfl

theorem parseStr_raw (c : Char) (tail : List Char) (h1 : ¬(c = '"'))
    (h2 : ¬(c = '\\')) (h3 : ¬(c.toNat < 32)) :
    parseStrChars (c :: tail) =
      (parseStrChars tail).map (fun p => (c :: p.1, p.2)) := by
  show (if c = '"' then some (([] : List Char), tail)
    else if c = '\\' then parseStrScan true tail
    else if c.toNat < 32 then none
    else (parseStrScan false tail).map (fun p => (c :: p.1, p.2))) =
    (parseStrChars tail).map (fun p => (c :: p.1, p.2))
  rw [if_neg h1, if_neg h2, if_neg h3]
  rfl

theorem parseStr_esc_unicode (h1 h2 h3 h4 : Char) (tail : List Char)
    {a b c3 d : Nat}
    (e1 : hexVal h1 = some a) (e2 : hexVal h2 = some b)
    (e3 : hexVal h3 = some c3) (e4 : hexVal h4 = some d)
    (hlo : 4096 * a + 256 * b + 16 * c3 + d < 0xd800) :
    parseStrChars ('\\' :: 'u' :: h1 :: h2 :: h3 :: h4 :: tail) =
      (parseStrChars tail).map
        (fun p => (Char.ofNat (4096 * a + 256 * b + 16 * c3 + d) :: p.1, p.2)) := by
  show (if (hexVal h1).isSome && (hexVal h2).isSome && (hexVal h3).isSome && (hexVal h4).isSome then
      if 0xd800 ≤ 4096 * (hexVal h1).getD 0 + 256 * (hexVal h2).getD 0 +
           16 * (hexVal h3).getD 0 + (hexVal h4).getD 0 ∧
         4096 * (hexVal h1).getD 0 + 256 * (hexVal h2).getD 0 +
           16 * (hexVal h3).getD 0 + (hexVal h4).getD 0 ≤ 0xdbff then
        parseStrSurr (4096 * (hexVal h1).getD 0 + 256 * (hexVal h2).getD 0 +
          16 * (hexVal h3).getD 0 + (hexVal h4).getD 0) tail
      else if 0xdc00 ≤ 4096 * (hexVal h1).getD 0 + 256 * (hexVal h2).getD 0 +
                16 * (hexVal h3).getD 0 + (hexVal h4).getD 0 ∧
              4096 * (hexVal h1).getD 0 + 256 * (hexVal h2).getD 0 +
                16 * (hexVal h3).getD 0 + (hexVal h4).getD 0 ≤ 0xdfff then none
      else (parseStrScan false tail).map (fun p =>
        (Char.ofNat (4096 * (hexVal h1).getD 0 + 256 * (hexVal h2).getD 0 +
          16 * (hexVal h3).getD 0 + (hexVal h4).getD 0) :: p.1, p.2))
    else none) =
    (parseStrChars tail).map
      (fun p => (Char.ofNat (4096 * a + 256 * b + 16 * c3 + d) :: p.1, p.2))
  rw [e1, e2, e3, e4]
  simp only [Option.isSome_some, Option.getD_some, Bool.and_self, if_true]
  rw [if_neg (by omega), if_neg (by omega)]
  rfl

theorem parseStrChars_escape (cs r : List Char) :
    parseStrChars (escapeStr cs ++ '"' :: r) = some (cs, r) := by
  induction cs with
  | nil => rfl
  | cons c rest ih =>
    have hstep : escapeStr (c :: rest) ++ '"' :: r =
        escapeChar c ++ (escapeStr rest ++ '"' :: r) := by
      simp [escapeStr, List.append_assoc]
    rw [hstep]
    by_cases h1 : c = '"'
    · subst h1
      show parseStrChars ('\\' :: '"' :: (escapeStr rest ++ '"' :: r)) =
        some ('"' :: rest, r)
      rw [parseStr_esc_quote, ih]
      rfl
    by_cases h2 : c = '\\'
    · subst h2
      show parseStrChars ('\\' :: '\\' :: (escapeStr rest ++ '"' :: r)) =
        some ('\\' :: rest, r)
      rw [parseStr_esc_backslash, ih]
      rfl
    by_cases h3 : c = '\n'
    · subst h3
      show parseStrChars ('\\' :: 'n' :: (escapeStr rest ++ '"' :: r)) =
        some ('\n' :: rest, r)
      rw [parseStr_esc_n, ih]
      rfl
    by_cases h4 : c = '\r'
    · subst h4
      show parseStrChars ('\\' :: 'r' :: (escapeStr rest ++ '"' :: r)) =
        some ('\r' :: rest, r)
      rw [parseStr_esc_r, ih]
      rfl
    by_cases h5 : c = '\t'
    · subst h5
      show parseStrChars ('\\' :: 't' :: (escapeStr rest ++ '"' :: r)) =
        some ('\t' :: rest, r)
      rw [parseStr_esc_t, ih]
      rfl
    by_cases h6 : c.toNat = 8
    · have hc : c = Char.ofNat 8 := by
        have hcc := congrArg Char.ofNat h6
        rwa [Char.ofNat_toNat] at hcc
      have hesc : escapeChar c = ['\\', 'b'] := by
        unfold escapeChar
        rw [if_neg h1, if_neg h2, if_neg h3, if_neg h4, if_neg h5, if_pos h6]
      rw [hesc]
      show parseStrChars ('\\' :: 'b' :: (escapeStr rest ++ '"' :: r)) =
        some (c :: rest, r)
      rw [parseStr_esc_b, ih, ← hc]
      rfl
    by_cases h7 : c.toNat = 12
    · have hc : c = Char.ofNat 12 := by
        have hcc := congrArg Char.ofNat h7
        rwa [Char.ofNat_toNat] at hcc
      have hesc : escapeChar c = ['\\', 'f'] := by
        unfold escapeChar
        rw [if_neg h1, if_neg h2, if_neg h3, if_neg h4, if_neg h5, if_neg h6, if_pos h7]
      rw [hesc]
      show parseStrChars ('\\' :: 'f' :: (escapeStr rest ++ '"' :: r)) =
        some (c :: rest, r)
      rw [parseStr_esc_f, ih, ← hc]
      rfl
    by_cases h8 : c.toNat < 32
    · have hesc : escapeChar c =
          ['\\', 'u', '0', '0', hexDigitLower (c.toNat / 16), hexDigitLower (c.toNat % 16)] := by
        unfold escapeChar
        rw [if_neg h1, if_neg h2, if_neg h3, if_neg h4, if_neg h5, if_neg h6, if_neg h7,
          if_pos h8]
      rw [hesc]
      show parseStrChars ('\\' :: 'u' :: '0' :: '0' :: hexDigitLower (c.toNat / 16) ::
          hexDigitLower (c.toNat % 16) :: (escapeStr rest ++ '"' :: r)) =
        some (c :: rest, r)
      rw [parseStr_esc_unicode '0' '0' (hexDigitLower (c.toNat / 16))
        (hexDigitLower (c.toNat % 16)) _
        (by decide : hexVal '0' = some 0) (by decide : hexVal '0' = some 0)
        (hexVal_hexDigitLower (by omega))
        (hexVal_hexDigitLower (Nat.mod_lt _ (by omega)))
        (by omega)]
      rw [ih]
      have hval : 4096 * 0 + 256 * 0 + 16 * (c.toNat / 16) + c.toNat % 16 = c.toNat := by
        have := Nat.div_add_mod c.toNat 16
        omega
      rw [hval, Char.ofNat_toNat]
      rfl
    · have hesc : escapeChar c = [c] := by
        unfold escapeChar
        rw [if_neg h1, if_neg h2, if_neg h3, if_neg h4, if_neg h5, if_neg h6, if_neg h7,
          if_neg h8]
      rw [hesc]
      show parseStrChars (c :: (escapeStr rest ++ '"' :: r)) = some (c :: rest, r)
      rw [parseStr_raw c _ h1 h2 h8, ih]
      rfl

/-! ## Fuel measures and well-formedness of scanned values -/

mutual

/-- Scanner fuel needed for one value: one step per `parseVal` entry. -/
def fuelJ : JVal → Nat
  | .jnull => 1
  | .jbool _ => 1
  | .jnum _ => 1
  | .jstr _ => 1
  | .jarr xs => fuelArr xs + 1
  | .jobj kvs => fuelObj kvs + 1

def fuelArr : List JVal → Nat
  | [] => 0
  | x :: xs => fuelJ x + fuelArr xs + 1

def fuelObj : List (List Char × JVal) → Nat
  | [] => 0
  | (_, v) :: ps => fuelJ v + fuelObj ps + 1

end

/-- Pairwise-distinct keys, as `dict(pairs)` leaves behind. -/
def keysNodupB : List (List Char × JVal) → Bool
  | [] => true
  | kv :: rest => !(rest.any (fun p => p.1 == kv.1)) && keysNodupB rest

mutual

/-- Values in the image of the scanner: every object has pairwise-distinct
keys (the `dict(pairs)` collapse has already happened). -/
def wfB : JVal → Bool
  | .jnull => true
  | .jbool _ => true
  | .jnum _ => true
  | .jstr _ => true
  | .jarr xs => wfList xs
  | .jobj kvs => keysNodupB kvs && wfPairs kvs

def wfList : List JVal → Bool
  | [] => true
  | x :: xs => wfB x && wfList xs

def wfPairs : List (List Char × JVal) → Bool
  | [] => true
  | (_, v) :: ps => wfB v && wfPairs ps

end

theorem fuelJ_pos (v : JVal) : 1 ≤ fuelJ v := by
  cases v <;> simp [fuelJ]

/-- `skipWs` keeps a non-whitespace head in place. -/
theorem skipWs_cons {c : Char} (t : List Char) (h : isJsonWs c = false) :
    skipWs (c :: t) = c :: t := by
  unfold skipWs
  rw [List.dropWhile_cons, h]
  rfl

/-- Character facts used to drive the scanner dispatch on a decimal digit. -/
theorem digit_facts {d : Char} (h : isAsciiDigitCh d = true) :
    isJsonWs d = false ∧ ¬(d = '"') ∧ ¬(d = '\x7b') ∧ ¬(d = '[') ∧
    ¬(d = 't') ∧ ¬(d = 'f') ∧ ¬(d = 'n') ∧ ¬(d = ']') ∧ ¬(d = '\x7d') := by
  unfold isAsciiDigitCh at h
  simp only [Bool.and_eq_true, decide_eq_true_eq] at h
  refine ⟨?_, ?_, ?_, ?_, ?_, ?_, ?_, ?_, ?_⟩
  · unfold isJsonWs
    simp only [Bool.or_eq_false_iff, decide_eq_false_iff_not]
    refine ⟨⟨⟨?_, ?_⟩, ?_⟩, ?_⟩ <;> (intro he; subst he; exact absurd h (by decide))
  all_goals (intro he; subst he; exact absurd h (by decide))

/-- The serialization of a value starts with a character that is neither
whitespace nor a closing bracket nor a comma. -/
theorem dumps_head (v : JVal) : ∃ c cs, dumps v = c :: cs ∧
    isJsonWs c = false ∧ ¬(c = ']') ∧ ¬(c = '\x7d') := by
  cases v with
  | jnull => exact ⟨'n', _, rfl, by decide, by decide, by decide⟩
  | jbool b =>
    cases b
    · exact ⟨'f', _, rfl, by decide, by decide, by decide⟩
    · exact ⟨'t', _, rfl, by decide, by decide, by decide⟩
  | jstr s => exact ⟨'"', _, rfl, by decide, by decide, by decide⟩
  | jarr xs => exact ⟨'[', _, rfl, by decide, by decide, by decide⟩
  | jobj kvs => exact ⟨'\x7b', _, rfl, by decide, by decide, by decide⟩
  | jnum n =>
    by_cases hn : n < 0
    · refine ⟨'-', natToDigits (-n).toNat, ?_, by decide, by decide, by decide⟩
      show (if n < 0 then '-' :: natToDigits (-n).toNat else natToDigits n.toNat) = _
      rw [if_pos hn]
    · have hne := natToDigits_ne_nil n.toNat
      match hnd : natToDigits n.toNat with
      | [] => exact absurd hnd hne
      | d :: ds =>
        have hd : isAsciiDigitCh d = true :=
          natToDigits_all_digit n.toNat d (by rw [hnd]; exact List.mem_cons_self d ds)
        obtain ⟨hws, _, _, _, _, _, _, h8, h9⟩ := digit_facts hd
        refine ⟨d, ds, ?_, hws, h8, h9⟩
        show (if n < 0 then '-' :: natToDigits (-n).toNat else natToDigits n.toNat) = _
        rw [if_neg hn, hnd]

/-- Tail of a comma-joined array past its first element. -/
def dumpsArrTail : List JVal → List Char
  | [] => []
  | y :: ys => ',' :: dumpsArr (y :: ys)

theorem dumpsArr_cons (x : JVal) (xs : List JVal) :
    dumpsArr (x :: xs) = dumps x ++ dumpsArrTail xs := by
  cases xs with
  | nil => show dumps x = dumps x ++ []; rw [List.append_nil]
  | cons y ys => rfl

/-- Tail of a comma-joined member list past its first member. -/
def dumpsObjTail : List (List Char × JVal) → List Char
  | [] => []
  | p :: ps => ',' :: dumpsObj (p :: ps)

theorem dumpsObj_cons (k : List Char) (v : JVal) (ps : List (List Char × JVal)) :
    dumpsObj ((k, v) :: ps) =
      '"' :: (escapeStr k ++ '"' :: ':' :: dumps v) ++ dumpsObjTail ps := by
  cases ps with
  | nil =>
    show _ = '"' :: (escapeStr k ++ '"' :: ':' :: dumps v) ++ []
    rw [List.append_nil]
    rfl
  | cons p ps' => rfl

/-! Single-step unfoldings of the fuel-indexed scanner, restated so that
hypotheses about the computed scrutinees can be rewritten in. -/

theorem parseVal_succ (fuel : Nat) (s : List Char) :
    parseVal (fuel + 1) s =
      match skipWs s with
      | [] => none
      | c :: rest =>
        if c = '"' then (parseStrChars rest).map (fun p => (JVal.jstr p.1, p.2))
        else if c = '\x7b' then
          match skipWs rest with
          | c2 :: r2 =>
            if c2 = '\x7d' then some (JVal.jobj [], r2)
            else (parseObjItems fuel (c2 :: r2)).map
              (fun p => (JVal.jobj (dedupPairs p.1), p.2))
          | [] => none
        else if c = '[' then
          match skipWs rest with
          | c2 :: r2 =>
            if c2 = ']' then some (JVal.jarr [], r2)
            else (parseArrItems fuel (c2 :: r2)).map (fun p => (JVal.jarr p.1, p.2))
          | [] => none
        else if c = 't' then
          match rest with
          | 'r' :: 'u' :: 'e' :: r => some (JVal.jbool true, r)
          | _ => none
        else if c = 'f' then
          match rest with
          | 'a' :: 'l' :: 's' :: 'e' :: r => some (JVal.jbool false, r)
          | _ => none
        else if c = 'n' then
          match rest with
          | 'u' :: 'l' :: 'l' :: r => some (JVal.jnull, r)
          | _ => none
        else (parseNumTok (c :: rest)).map (fun p => (JVal.jnum p.1, p.2)) := rfl

theorem parseArrItems_succ (fuel : Nat) (s : List Char) :
    parseArrItems (fuel + 1) s =
      match parseVal fuel s with
      | none => none
      | some (v, r1) =>
        match skipWs r1 with
        | ',' :: r2 => (parseArrItems fuel r2).map (fun p => (v :: p.1, p.2))
        | ']' :: r2 => some ([v], r2)
        | _ => none := rfl

theorem parseObjItems_succ (fuel : Nat) (s : List Char) :
    parseObjItems (fuel + 1) s =
      match s with
      | '"' :: r0 =>
        match parseStrChars r0 with
        | none => none
        | some (k, r1) =>
          match skipWs r1 with
          | ':' :: r2 =>
            match parseVal fuel r2 with
            | none => none
            | some (v, r3) =>
              match skipWs r3 with
              | ',' :: r4 =>
                (parseObjItems fuel (skipWs r4)).map (fun p => ((k, v) :: p.1, p.2))
              | '\x7d' :: r4 => some ([(k, v)], r4)
              | _ => none
          | _ => none
      | _ => none := rfl

/-- A digit or minus head falls through every dispatch test into the
number token. -/
theorem parseVal_num (fuel : Nat) (c : Char) (t : List Char)
    (h : isAsciiDigitCh c = true ∨ c = '-') :
    parseVal (fuel + 1) (c :: t) =
      (parseNumTok (c :: t)).map (fun (p : Int × List Char) => (JVal.jnum p.1, p.2)) := by
  rcases h with hd | hm
  · obtain ⟨hws, h1, h2, h3, h4, h5, h6, _, _⟩ := digit_facts hd
    rw [parseVal_succ, skipWs_cons t hws]
    show (if c = '"' then (parseStrChars t).map (fun (p : List Char × List Char) => (JVal.jstr p.1, p.2))
      else if c = '\x7b' then
        match skipWs t with
        | c2 :: r2 =>
          if c2 = '\x7d' then some (JVal.jobj [], r2)
          else (parseObjItems fuel (c2 :: r2)).map
            (fun (p : List (List Char × JVal) × List Char) => (JVal.jobj (dedupPairs p.1), p.2))
        | [] => none
      else if c = '[' then
        match skipWs t with
        | c2 :: r2 =>
          if c2 = ']' then some (JVal.jarr [], r2)
          else (parseArrItems fuel (c2 :: r2)).map (fun (p : List JVal × List Char) => (JVal.jarr p.1, p.2))
        | [] => none
      else if c = 't' then
        match t with
        | 'r' :: 'u' :: 'e' :: r => some (JVal.jbool true, r)
        | _ => none
      else if c = 'f' then
        match t with
        | 'a' :: 'l' :: 's' :: 'e' :: r => some (JVal.jbool false, r)
        | _ => none
      else if c = 'n' then
        match t with
        | 'u' :: 'l' :: 'l' :: r => some (JVal.jnull, r)
        | _ => none
      else (parseNumTok (c :: t)).map (fun (p : Int × List Char) => (JVal.jnum p.1, p.2))) = _
    rw [if_neg h1, if_neg h2, if_neg h3, if_neg h4, if_neg h5, if_neg h6]
  · subst hm
    rfl

/-- Opening bracket followed by a non-`]` token scans the member list. -/
theorem parseVal_arr (fuel : Nat) (t : List Char) (c2 : Char) (r2 : List Char)
    (h : skipWs t = c2 :: r2) (hne : ¬(c2 = ']')) :
    parseVal (fuel + 1) ('[' :: t) =
      (parseArrItems fuel (c2 :: r2)).map (fun (p : List JVal × List Char) => (JVal.jarr p.1, p.2)) := by
  rw [parseVal_succ]
  show (match skipWs t with
    | c2 :: r2 =>
      if c2 = ']' then some (JVal.jarr [], r2)
      else (parseArrItems fuel (c2 :: r2)).map (fun (p : List JVal × List Char) => (JVal.jarr p.1, p.2))
    | [] => none) = _
  rw [h]
  show (if c2 = ']' then some (JVal.jarr [], r2)
    else (parseArrItems fuel (c2 :: r2)).map (fun (p : List JVal × List Char) => (JVal.jarr p.1, p.2))) = _
  rw [if_neg hne]

/-- Opening brace followed by a non-brace token scans the member list and
passes the pairs through the `dict(pairs)` collapse. -/
theorem parseVal_obj (fuel : Nat) (t : List Char) (c2 : Char) (r2 : List Char)
    (h : skipWs t = c2 :: r2) (hne : ¬(c2 = '\x7d')) :
    parseVal (fuel + 1) ('\x7b' :: t) =
      (parseObjItems fuel (c2 :: r2)).map
        (fun (p : List (List Char × JVal) × List Char) => (JVal.jobj (dedupPairs p.1), p.2)) := by
  rw [parseVal_succ]
  show (match skipWs t with
    | c2 :: r2 =>
      if c2 = '\x7d' then some (JVal.jobj [], r2)
      else (parseObjItems fuel (c2 :: r2)).map
        (fun (p : List (List Char × JVal) × List Char) => (JVal.jobj (dedupPairs p.1), p.2))
    | [] => none) = _
  rw [h]
  show (if c2 = '\x7d' then some (JVal.jobj [], r2)
    else (parseObjItems fuel (c2 :: r2)).map
      (fun (p : List (List Char × JVal) × List Char) => (JVal.jobj (dedupPairs p.1), p.2))) = _
  rw [if_neg hne]

/-- Last array member: value then `]`. -/
theorem parseArr_last (fuel : Nat) (s : List Char) (v : JVal) (r1 r2 : List Char)
    (hv : parseVal fuel s = some (v, r1)) (hr : skipWs r1 = ']' :: r2) :
    parseArrItems (fuel + 1) s = some ([v], r2) := by
  rw [parseArrItems_succ, hv]
  show (match skipWs r1 with
    | ',' :: r2 => (parseArrItems fuel r2).map (fun (p : List JVal × List Char) => (v :: p.1, p.2))
    | ']' :: r2 => some ([v], r2)
    | _ => none) = _
  rw [hr]
  rfl

/-- Inner array member: value then `,` then the remaining members. -/
theorem parseArr_cons (fuel : Nat) (s : List Char) (v : JVal) (r1 r2 : List Char)
    (hv : parseVal fuel s = some (v, r1)) (hr : skipWs r1 = ',' :: r2) :
    parseArrItems (fuel + 1) s =
      (parseArrItems fuel r2).map (fun (p : List JVal × List Char) => (v :: p.1, p.2)) := by
  rw [parseArrItems_succ, hv]
  show (match skipWs r1 with
    | ',' :: r2 => (parseArrItems fuel r2).map (fun (p : List JVal × List Char) => (v :: p.1, p.2))
    | ']' :: r2 => some ([v], r2)
    | _ => none) = _
  rw [hr]
  rfl

/-- Last object member: key, colon, value, then `\x7d`. -/
theorem parseObj_last (fuel : Nat) (r0 : List Char) (k : List Char)
    (r1 r2 : List Char) (v : JVal) (r3 r4 : List Char)
    (hk : parseStrChars r0 = some (k, r1)) (hc : skipWs r1 = ':' :: r2)
    (hv : parseVal fuel r2 = some (v, r3)) (hr : skipWs r3 = '\x7d' :: r4) :
    parseObjItems (fuel + 1) ('"' :: r0) = some ([(k, v)], r4) := by
  rw [parseObjItems_succ]
  show (match parseStrChars r0 with
    | none => none
    | some (k, r1) =>
      match skipWs r1 with
      | ':' :: r2 =>
        match parseVal fuel r2 with
        | none => none
        | some (v, r3) =>
          match skipWs r3 with
          | ',' :: r4 =>
            (parseObjItems fuel (skipWs r4)).map (fun (p : List (List Char × JVal) × List Char) => ((k, v) :: p.1, p.2))
          | '\x7d' :: r4 => some ([(k, v)], r4)
          | _ => none
      | _ => none) = _
  rw [hk]
  show (match skipWs r1 with
    | ':' :: r2 =>
      match parseVal fuel r2 with
      | none => none
      | some (v, r3) =>
        match skipWs r3 with
        | ',' :: r4 =>
          (parseObjItems fuel (skipWs r4)).map (fun (p : List (List Char × JVal) × List Char) => ((k, v) :: p.1, p.2))
        | '\x7d' :: r4 => some ([(k, v)], r4)
        | _ => none
    | _ => none) = _
  rw [hc]
  show (match parseVal fuel r2 with
    | none => none
    | some (v, r3) =>
      match skipWs r3 with
      | ',' :: r4 =>
        (parseObjItems fuel (skipWs r4)).map (fun (p : List (List Char × JVal) × List Char) => ((k, v) :: p.1, p.2))
      | '\x7d' :: r4 => some ([(k, v)], r4)
      | _ => none) = _
  rw [hv]
  show (match skipWs r3 with
    | ',' :: r4 =>
      (parseObjItems fuel (skipWs r4)).map (fun (p : List (List Char × JVal) × List Char) => ((k, v) :: p.1, p.2))
    | '\x7d' :: r4 => some ([(k, v)], r4)
    | _ => none) = _
  rw [hr]
  rfl

/-- Inner object member: key, colon, value, then `,` and the rest. -/
theorem parseObj_cons (fuel : Nat) (r0 : List Char) (k : List Char)
    (r1 r2 : List Char) (v : JVal) (r3 r4 : List Char)
    (hk : parseStrChars r0 = some (k, r1)) (hc : skipWs r1 = ':' :: r2)
    (hv : parseVal fuel r2 = some (v, r3)) (hr : skipWs r3 = ',' :: r4) :
    parseObjItems (fuel + 1) ('"' :: r0) =
      (parseObjItems fuel (skipWs r4)).map (fun (p : List (List Char × JVal) × List Char) => ((k, v) :: p.1, p.2)) := by
  rw [parseObjItems_succ]
  show (match parseStrChars r0 with
    | none => none
    | some (k, r1) =>
      match skipWs r1 with
      | ':' :: r2 =>
        match parseVal fuel r2 with
        | none => none
        | some (v, r3) =>
          match skipWs r3 with
          | ',' :: r4 =>
            (parseObjItems fuel (skipWs r4)).map (fun (p : List (List Char × JVal) × List Char) => ((k, v) :: p.1, p.2))
          | '\x7d' :: r4 => some ([(k, v)], r4)
          | _ => none
      | _ => none) = _
  rw [hk]
  show (match skipWs r1 with
    | ':' :: r2 =>
      match parseVal fuel r2 with
      | none => none
      | some (v, r3) =>
        match skipWs r3 with
        | ',' :: r4 =>
          (parseObjItems fuel (skipWs r4)).map (fun (p : List (List Char × JVal) × List Char) => ((k, v) :: p.1, p.2))
        | '\x7d' :: r4 => some ([(k, v)], r4)
        | _ => none
    | _ => none) = _
  rw [hc]
  show (match parseVal fuel r2 with
    | none => none
    | some (v, r3) =>
      match skipWs r3 with
      | ',' :: r4 =>
        (parseObjItems fuel (skipWs r4)).map (fun (p : List (List Char × JVal) × List Char) => ((k, v) :: p.1, p.2))
      | '\x7d' :: r4 => some ([(k, v)], r4)
      | _ => none) = _
  rw [hv]
  show (match skipWs r3 with
    | ',' :: r4 =>
      (parseObjItems fuel (skipWs r4)).map (fun (p : List (List Char × JVal) × List Char) => ((k, v) :: p.1, p.2))
    | '\x7d' :: r4 => some ([(k, v)], r4)
    | _ => none) = _
  rw [hr]
  rfl

mutual

/-- The scanner fuel a value needs is dominated by its serialized length. -/
theorem fuelJ_lt (v : JVal) : fuelJ v < 2 * (dumps v).length := by
  cases v with
  | jnull => decide
  | jbool b => cases b <;> decide
  | jstr s =>
    show 1 < 2 * ('"' :: (escapeStr s ++ ['"'])).length
    simp only [List.length_cons]
    omega
  | jnum n =>
    show 1 < 2 * (intRepr n).length
    have hlen : 1 ≤ (intRepr n).length := by
      unfold intRepr
      by_cases hn : n < 0
      · rw [if_pos hn]
        simp only [List.length_cons]
        omega
      · rw [if_neg hn]
        have := natToDigits_ne_nil n.toNat
        cases hnd : natToDigits n.toNat with
        | nil => exact absurd hnd this
        | cons d ds => simp only [List.length_cons]; omega
    omega
  | jarr xs =>
    have h := fuelArr_le xs
    show fuelArr xs + 1 < 2 * ('[' :: (dumpsArr xs ++ [']'])).length
    simp only [List.length_cons, List.length_append, List.length_singleton]
    omega
  | jobj kvs =>
    have h := fuelObj_le kvs
    show fuelObj kvs + 1 < 2 * ('\x7b' :: (dumpsObj kvs ++ ['\x7d'])).length
    simp only [List.length_cons, List.length_append, List.length_singleton]
    omega

theorem fuelArr_le (xs : List JVal) : fuelArr xs ≤ 2 * (dumpsArr xs).length := by
  cases xs with
  | nil => decide
  | cons x xs =>
    have hx := fuelJ_lt x
    cases xs with
    | nil =>
      show fuelJ x + 0 + 1 ≤ 2 * (dumps x).length
      omega
    | cons y ys =>
      have ht := fuelArr_le (y :: ys)
      show fuelJ x + fuelArr (y :: ys) + 1 ≤
        2 * (dumps x ++ ',' :: dumpsArr (y :: ys)).length
      simp only [List.length_append, List.length_cons]
      omega

theorem fuelObj_le (kvs : List (List Char × JVal)) :
    fuelObj kvs ≤ 2 * (dumpsObj kvs).length := by
  cases kvs with
  | nil => decide
  | cons kv ps =>
    obtain ⟨k, v⟩ := kv
    have hv := fuelJ_lt v
    cases ps with
    | nil =>
      show fuelJ v + 0 + 1 ≤ 2 * ('"' :: (escapeStr k ++ '"' :: ':' :: dumps v)).length
      simp only [List.length_cons, List.length_append]
      omega
    | cons p ps' =>
      have ht := fuelObj_le (p :: ps')
      show fuelJ v + fuelObj (p :: ps') + 1 ≤
        2 * (('"' :: (escapeStr k ++ '"' :: ':' :: dumps v)) ++
          ',' :: dumpsObj (p :: ps')).length
      simp only [List.length_cons, List.length_append]
      omega

end

/-! ## dict(pairs) duplicate collapse -/

/-- Presence of a key among the pairs. -/
def keyMem (acc : List (List Char × JVal)) (q : List Char) : Bool :=
  acc.any (fun p => p.1 == q)

theorem keyMem_cons (p : List Char × JVal) (ps : List (List Char × JVal))
    (q : List Char) : keyMem (p :: ps) q = ((p.1 == q) || keyMem ps q) := by
  unfold keyMem
  rw [List.any_cons]

theorem keyMem_append (l₁ l₂ : List (List Char × JVal)) (q : List Char) :
    keyMem (l₁ ++ l₂) q = (keyMem l₁ q || keyMem l₂ q) := by
  unfold keyMem
  rw [List.any_append]

theorem keysNodupB_cons (p : List Char × JVal) (ps : List (List Char × JVal)) :
    keysNodupB (p :: ps) = ((!keyMem ps p.1) && keysNodupB ps) := rfl

theorem wfPairs_cons (k : List Char) (v : JVal) (ps : List (List Char × JVal)) :
    wfPairs ((k, v) :: ps) = (wfB v && wfPairs ps) := rfl

theorem upsertPair_found {acc : List (List Char × JVal)} {kv : List Char × JVal}
    (h : keyMem acc kv.1 = true) :
    upsertPair acc kv = acc.map (fun p => if p.1 == kv.1 then (p.1, kv.2) else p) := by
  unfold upsertPair
  rw [show (acc.any fun p => p.1 == kv.1) = true from h]
  rw [if_pos rfl]

theorem upsertPair_new {acc : List (List Char × JVal)} {kv : List Char × JVal}
    (h : keyMem acc kv.1 = false) :
    upsertPair acc kv = acc ++ [kv] := by
  unfold upsertPair
  rw [show (acc.any fun p => p.1 == kv.1) = false from h]
  rw [if_neg Bool.false_ne_true]

theorem keyMem_map_value (acc : List (List Char × JVal)) (k0 : List Char)
    (x : JVal) (q : List Char) :
    keyMem (acc.map (fun p => if p.1 == k0 then (p.1, x) else p)) q = keyMem acc q := by
  induction acc with
  | nil => rfl
  | cons p ps ih =>
    rw [List.map_cons, keyMem_cons, keyMem_cons, ih]
    by_cases h : (p.1 == k0) = true
    · rw [if_pos h]
    · rw [if_neg h]

theorem keysNodupB_map_value (acc : List (List Char × JVal)) (k0 : List Char)
    (x : JVal) :
    keysNodupB (acc.map (fun p => if p.1 == k0 then (p.1, x) else p)) =
      keysNodupB acc := by
  induction acc with
  | nil => rfl
  | cons p ps ih =>
    rw [List.map_cons, keysNodupB_cons, keysNodupB_cons, ih, keyMem_map_value]
    by_cases h : (p.1 == k0) = true
    · rw [if_pos h]
    · rw [if_neg h]

theorem keysNodupB_append_new {acc : List (List Char × JVal)}
    {kv : List Char × JVal} (hnd : keysNodupB acc = true)
    (h : keyMem acc kv.1 = false) : keysNodupB (acc ++ [kv]) = true := by
  induction acc with
  | nil =>
    rw [List.nil_append, keysNodupB_cons]
    rfl
  | cons p ps ih =>
    rw [keysNodupB_cons, Bool.and_eq_true, Bool.not_eq_true'] at hnd
    rw [keyMem_cons, Bool.or_eq_false_iff] at h
    rw [List.cons_append, keysNodupB_cons, Bool.and_eq_true, Bool.not_eq_true']
    refine ⟨?_, ih hnd.2 h.2⟩
    rw [keyMem_append, hnd.1, Bool.false_or]
    unfold keyMem
    rw [List.any_cons]
    have h2 : (kv.1 == p.1) = false := by
      rw [beq_eq_false_iff_ne] at h ⊢
      exact fun he => h.1 he.symm
    rw [h2]
    rfl

theorem wfPairs_map_value (acc : List (List Char × JVal)) (k0 : List Char)
    (x : JVal) (hx : wfB x = true) (ha : wfPairs acc = true) :
    wfPairs (acc.map (fun p => if p.1 == k0 then (p.1, x) else p)) = true := by
  induction acc with
  | nil => rfl
  | cons p ps ih =>
    obtain ⟨k, v⟩ := p
    rw [wfPairs_cons, Bool.and_eq_true] at ha
    rw [List.map_cons]
    by_cases h : ((k, v).1 == k0) = true
    · rw [if_pos h, wfPairs_cons, Bool.and_eq_true]
      exact ⟨hx, ih ha.2⟩
    · rw [if_neg h, wfPairs_cons, Bool.and_eq_true]
      exact ⟨ha.1, ih ha.2⟩

theorem wfPairs_append_one {acc : List (List Char × JVal)}
    {kv : List Char × JVal} (ha : wfPairs acc = true) (hv : wfB kv.2 = true) :
    wfPairs (acc ++ [kv]) = true := by
  induction acc with
  | nil =>
    obtain ⟨k, v⟩ := kv
    rw [List.nil_append, wfPairs_cons, Bool.and_eq_true]
    exact ⟨hv, rfl⟩
  | cons p ps ih =>
    obtain ⟨k, v⟩ := p
    rw [wfPairs_cons, Bool.and_eq_true] at ha
    rw [List.cons_append, wfPairs_cons, Bool.and_eq_true]
    exact ⟨ha.1, ih ha.2⟩

theorem keysNodupB_upsert {acc : List (List Char × JVal)} (kv : List Char × JVal)
    (h : keysNodupB acc = true) : keysNodupB (upsertPair acc kv) = true := by
  cases hm : keyMem acc kv.1 with
  | true => rw [upsertPair_found hm, keysNodupB_map_value]; exact h
  | false => rw [upsertPair_new hm]; exact keysNodupB_append_new h hm

theorem wfPairs_upsert {acc : List (List Char × JVal)} (kv : List Char × JVal)
    (ha : wfPairs acc = true) (hv : wfB kv.2 = true) :
    wfPairs (upsertPair acc kv) = true := by
  cases hm : keyMem acc kv.1 with
  | true => rw [upsertPair_found hm]; exact wfPairs_map_value acc kv.1 kv.2 hv ha
  | false => rw [upsertPair_new hm]; exact wfPairs_append_one ha hv

theorem dedup_invariant (kvs : List (List Char × JVal)) :
    ∀ acc, keysNodupB acc = true → wfPairs acc = true → wfPairs kvs = true →
    keysNodupB (kvs.foldl upsertPair acc) = true ∧
    wfPairs (kvs.foldl upsertPair acc) = true := by
  induction kvs with
  | nil => intro acc h1 h2 _; exact ⟨h1, h2⟩
  | cons kv kvs ih =>
    intro acc h1 h2 h3
    obtain ⟨k, v⟩ := kv
    rw [wfPairs_cons, Bool.and_eq_true] at h3
    rw [List.foldl_cons]
    exact ih _ (keysNodupB_upsert (k, v) h1)
      (wfPairs_upsert (k, v) h2 h3.1) h3.2

theorem dedupPairs_wf {kvs : List (List Char × JVal)} (h : wfPairs kvs = true) :
    keysNodupB (dedupPairs kvs) = true ∧ wfPairs (dedupPairs kvs) = true :=
  dedup_invariant kvs [] rfl rfl h

theorem foldl_upsert_nodup (kvs : List (List Char × JVal)) :
    ∀ acc, (∀ kv ∈ kvs, keyMem acc kv.1 = false) → keysNodupB kvs = true →
    kvs.foldl upsertPair acc = acc ++ kvs := by
  induction kvs with
  | nil => intro acc _ _; rw [List.foldl_nil, List.append_nil]
  | cons kv kvs ih =>
    intro acc hdisj hnd
    rw [keysNodupB_cons, Bool.and_eq_true, Bool.not_eq_true'] at hnd
    rw [List.foldl_cons, upsertPair_new (hdisj kv (List.mem_cons_self kv kvs))]
    rw [ih (acc ++ [kv]) ?_ hnd.2]
    · rw [List.append_assoc]
      rfl
    · intro kv' hkv'
      rw [keyMem_append, hdisj kv' (List.mem_cons_of_mem kv hkv'), Bool.false_or]
      rw [keyMem_cons]
      have h2 : (kv.1 == kv'.1) = false := by
        rw [beq_eq_false_iff_ne]
        intro he
        have hx := List.any_eq_false.mp (by exact hnd.1) kv' hkv'
        exact hx (by rw [← he]; exact beq_self_eq_true kv.1)
      rw [h2]
      rfl

/-- On pairwise-distinct keys the `dict(pairs)` collapse is the identity. -/
theorem dedupPairs_of_nodup {kvs : List (List Char × JVal)}
    (h : keysNodupB kvs = true) : dedupPairs kvs = kvs := by
  unfold dedupPairs
  rw [foldl_upsert_nodup kvs [] (fun kv _ => rfl) h]
  rfl

/-- The scanner inverts the compact serializer on well-formed values, for
any fuel at least the value's measure; arrays and objects carry their
closing bracket in the continuation. -/
theorem dumps_roundTrip (fuel : Nat) :
    (∀ v rest, wfB v = true → fuelJ v ≤ fuel → numSafe rest = true →
      parseVal fuel (dumps v ++ rest) = some (v, rest)) ∧
    (∀ x xs rest, wfList (x :: xs) = true → fuelArr (x :: xs) ≤ fuel →
      parseArrItems fuel (dumpsArr (x :: xs) ++ ']' :: rest) = some (x :: xs, rest)) ∧
    (∀ k v ps rest, wfPairs ((k, v) :: ps) = true → fuelObj ((k, v) :: ps) ≤ fuel →
      parseObjItems fuel (dumpsObj ((k, v) :: ps) ++ '\x7d' :: rest) =
        some ((k, v) :: ps, rest)) := by
  induction fuel with
  | zero =>
    refine ⟨?_, ?_, ?_⟩
    · intro v rest _ hfuel _
      have := fuelJ_pos v
      omega
    · intro x xs rest _ hfuel
      have h1 : fuelJ x + fuelArr xs + 1 ≤ 0 := hfuel
      omega
    · intro k v ps rest _ hfuel
      have h1 : fuelJ v + fuelObj ps + 1 ≤ 0 := hfuel
      omega
  | succ fuel ih =>
    obtain ⟨ihV, ihA, ihO⟩ := ih
    refine ⟨?_, ?_, ?_⟩
    · intro v rest hwf hfuel hsafe
      cases v with
      | jnull => rfl
      | jbool b => cases b <;> rfl
      | jnum n =>
        by_cases hn : n < 0
        · have hd : intRepr n = '-' :: natToDigits (-n).toNat := by
            unfold intRepr
            rw [if_pos hn]
          have hsplit : dumps (JVal.jnum n) ++ rest =
              '-' :: (natToDigits (-n).toNat ++ rest) := by
            show intRepr n ++ rest = _
            rw [hd]
            rfl
          rw [hsplit, parseVal_num fuel '-' _ (Or.inr rfl), ← hsplit]
          show (parseNumTok (intRepr n ++ rest)).map
            (fun (p : Int × List Char) => (JVal.jnum p.1, p.2)) = _
          rw [parseNumTok_intRepr n rest hsafe]
          rfl
        · have hne := natToDigits_ne_nil n.toNat
          cases hnd : natToDigits n.toNat with
          | nil => exact absurd hnd hne
          | cons d ds =>
            have hdig : isAsciiDigitCh d = true :=
              natToDigits_all_digit n.toNat d
                (by rw [hnd]; exact List.mem_cons_self d ds)
            have hd : intRepr n = d :: ds := by
              unfold intRepr
              rw [if_neg hn, hnd]
            have hsplit : dumps (JVal.jnum n) ++ rest = d :: (ds ++ rest) := by
              show intRepr n ++ rest = _
              rw [hd]
              rfl
            rw [hsplit, parseVal_num fuel d _ (Or.inl hdig), ← hsplit]
            show (parseNumTok (intRepr n ++ rest)).map
              (fun (p : Int × List Char) => (JVal.jnum p.1, p.2)) = _
            rw [parseNumTok_intRepr n rest hsafe]
            rfl
      | jstr s =>
        show (parseStrChars ((escapeStr s ++ ['"']) ++ rest)).map
          (fun (p : List Char × List Char) => (JVal.jstr p.1, p.2)) =
          some (JVal.jstr s, rest)
        rw [List.append_assoc, List.singleton_append, parseStrChars_escape s rest]
        rfl
      | jarr xs =>
        cases xs with
        | nil => rfl
        | cons x xs' =>
          have hwl : wfList (x :: xs') = true := hwf
          have hf1 : fuelArr (x :: xs') + 1 ≤ fuel + 1 := hfuel
          have hfa : fuelArr (x :: xs') ≤ fuel := by omega
          obtain ⟨c, cs, hdx, hws, hne1, _⟩ := dumps_head x
          have hdarr : dumpsArr (x :: xs') = c :: (cs ++ dumpsArrTail xs') := by
            rw [dumpsArr_cons, hdx]
            rfl
          have hfull : dumps (JVal.jarr (x :: xs')) ++ rest =
              '[' :: (dumpsArr (x :: xs') ++ ']' :: rest) := by
            show ('[' :: (dumpsArr (x :: xs') ++ [']'])) ++ rest = _
            rw [List.cons_append, List.append_assoc]
            rfl
          have hlist : dumpsArr (x :: xs') ++ ']' :: rest =
              c :: ((cs ++ dumpsArrTail xs') ++ ']' :: rest) := by
            rw [hdarr]
            rfl
          have hsw : skipWs (dumpsArr (x :: xs') ++ ']' :: rest) =
              c :: ((cs ++ dumpsArrTail xs') ++ ']' :: rest) := by
            rw [hlist]
            exact skipWs_cons _ hws
          rw [hfull, parseVal_arr fuel _ c _ hsw hne1, ← hlist,
            ihA x xs' rest hwl hfa]
          rfl
      | jobj kvs =>
        cases kvs with
        | nil => rfl
        | cons kv ps =>
          obtain ⟨k, v⟩ := kv
          have hw : (keysNodupB ((k, v) :: ps) && wfPairs ((k, v) :: ps)) = true := hwf
          rw [Bool.and_eq_true] at hw
          have hf1 : fuelObj ((k, v) :: ps) + 1 ≤ fuel + 1 := hfuel
          have hfo : fuelObj ((k, v) :: ps) ≤ fuel := by omega
          have hfull : dumps (JVal.jobj ((k, v) :: ps)) ++ rest =
              '\x7b' :: (dumpsObj ((k, v) :: ps) ++ '\x7d' :: rest) := by
            show ('\x7b' :: (dumpsObj ((k, v) :: ps) ++ ['\x7d'])) ++ rest = _
            rw [List.cons_append, List.append_assoc]
            rfl
          have hhead : dumpsObj ((k, v) :: ps) ++ '\x7d' :: rest =
              '"' :: ((escapeStr k ++ '"' :: ':' :: dumps v) ++
                (dumpsObjTail ps ++ '\x7d' :: rest)) := by
            rw [dumpsObj_cons]
            simp [List.append_assoc]
          have hsw : skipWs (dumpsObj ((k, v) :: ps) ++ '\x7d' :: rest) =
              '"' :: ((escapeStr k ++ '"' :: ':' :: dumps v) ++
                (dumpsObjTail ps ++ '\x7d' :: rest)) := by
            rw [hhead]
            exact skipWs_cons _ (by decide)
          rw [hfull, parseVal_obj fuel _ '"' _ hsw (by decide), ← hhead,
            ihO k v ps rest hw.2 hfo]
          show some (JVal.jobj (dedupPairs ((k, v) :: ps)), rest) =
            some (JVal.jobj ((k, v) :: ps), rest)
          rw [dedupPairs_of_nodup hw.1]
    · intro x xs rest hwl hfa
      rw [show wfList (x :: xs) = (wfB x && wfList xs) from rfl,
        Bool.and_eq_true] at hwl
      have hf1 : fuelJ x + fuelArr xs + 1 ≤ fuel + 1 := hfa
      have hfx : fuelJ x ≤ fuel := by omega
      cases xs with
      | nil =>
        have hv := ihV x (']' :: rest) hwl.1 hfx rfl
        exact parseArr_last fuel _ x (']' :: rest) rest hv
          (skipWs_cons rest (by decide))
      | cons y ys =>
        have hfyys : fuelArr (y :: ys) ≤ fuel := by
          have h2 : fuelJ y + fuelArr ys + 1 ≤ fuelArr (y :: ys) := by
            show fuelJ y + fuelArr ys + 1 ≤ fuelJ y + fuelArr ys + 1
            omega
          have h3 : fuelArr (y :: ys) = fuelJ y + fuelArr ys + 1 := rfl
          omega
        have hs : dumpsArr (x :: y :: ys) ++ ']' :: rest =
            dumps x ++ ',' :: (dumpsArr (y :: ys) ++ ']' :: rest) := by
          show (dumps x ++ ',' :: dumpsArr (y :: ys)) ++ ']' :: rest = _
          rw [List.append_assoc]
          rfl
        have hv := ihV x (',' :: (dumpsArr (y :: ys) ++ ']' :: rest)) hwl.1 hfx rfl
        rw [hs, parseArr_cons fuel _ x _ (dumpsArr (y :: ys) ++ ']' :: rest) hv
          (skipWs_cons _ (by decide)), ihA y ys rest hwl.2 hfyys]
        rfl
    · intro k v ps rest hwp hfo
      rw [wfPairs_cons, Bool.and_eq_true] at hwp
      have hf1 : fuelJ v + fuelObj ps + 1 ≤ fuel + 1 := hfo
      have hfv : fuelJ v ≤ fuel := by omega
      have hs : dumpsObj ((k, v) :: ps) ++ '\x7d' :: rest =
          '"' :: (escapeStr k ++ '"' :: ':' ::
            (dumps v ++ (dumpsObjTail ps ++ '\x7d' :: rest))) := by
        rw [dumpsObj_cons]
        simp [List.append_assoc]
      have hk := parseStrChars_escape k
        (':' :: (dumps v ++ (dumpsObjTail ps ++ '\x7d' :: rest)))
      have hns : numSafe (dumpsObjTail ps ++ '\x7d' :: rest) = true := by
        cases ps with
        | nil => rfl
        | cons p ps' => rfl
      have hv2 := ihV v (dumpsObjTail ps ++ '\x7d' :: rest) hwp.1 hfv hns
      rw [hs]
      cases ps with
      | nil =>
        have hr : skipWs (dumpsObjTail ([] : List (List Char × JVal)) ++
            '\x7d' :: rest) = '\x7d' :: rest := skipWs_cons rest (by decide)
        exact parseObj_last fuel _ k _ _ v _ rest hk
          (skipWs_cons _ (by decide)) hv2 hr
      | cons p ps' =>
        obtain ⟨k2, v2⟩ := p
        have hfo2 : fuelObj ((k2, v2) :: ps') ≤ fuel := by
          have h3 : fuelObj ((k, v) :: (k2, v2) :: ps') =
            fuelJ v + fuelObj ((k2, v2) :: ps') + 1 := rfl
          omega
        have hr : skipWs (dumpsObjTail ((k2, v2) :: ps') ++ '\x7d' :: rest) =
            ',' :: (dumpsObj ((k2, v2) :: ps') ++ '\x7d' :: rest) :=
          skipWs_cons _ (by decide)
        rw [parseObj_cons fuel _ k _ _ v _ _ hk
          (skipWs_cons _ (by decide)) hv2 hr]
        have hsw2 : skipWs (dumpsObj ((k2, v2) :: ps') ++ '\x7d' :: rest) =
            dumpsObj ((k2, v2) :: ps') ++ '\x7d' :: rest := by
          have hcons : dumpsObj ((k2, v2) :: ps') ++ '\x7d' :: rest =
              '"' :: ((escapeStr k2 ++ '"' :: ':' :: dumps v2) ++
                (dumpsObjTail ps' ++ '\x7d' :: rest)) := by
            rw [dumpsObj_cons]
            simp [List.append_assoc]
          rw [hcons]
          exact skipWs_cons _ (by decide)
        rw [hsw2, ihO k2 v2 ps' rest hwp.2 hfo2]
        rfl

/-- `json.loads` inverts the compact serializer on well-formed values. -/
theorem pyLoads_dumps {v : JVal} (h : wfB v = true) : pyLoads (dumps v) = some v := by
  unfold pyLoads
  have hfuel : fuelJ v ≤ 2 * (dumps v).length + 2 := by
    have := fuelJ_lt v
    omega
  have hrt := (dumps_roundTrip (2 * (dumps v).length + 2)).1 v [] h hfuel rfl
  rw [List.append_nil] at hrt
  rw [hrt]
  rfl

/-- Everything the scanner returns is well-formed: object pairs have been
passed through the `dict(pairs)` collapse. -/
theorem parse_wf (fuel : Nat) :
    (∀ s v r, parseVal fuel s = some (v, r) → wfB v = true) ∧
    (∀ s xs r, parseArrItems fuel s = some (xs, r) → wfList xs = true) ∧
    (∀ s kvs r, parseObjItems fuel s = some (kvs, r) → wfPairs kvs = true) := by
  induction fuel with
  | zero =>
    refine ⟨?_, ?_, ?_⟩ <;> intro s a r h <;> exact Option.noConfusion h
  | succ fuel ih =>
    obtain ⟨ihV, ihA, ihO⟩ := ih
    refine ⟨?_, ?_, ?_⟩
    · intro s v r h
      rw [parseVal_succ] at h
      split at h
      · exact Option.noConfusion h
      · split at h
        · rw [Option.map_eq_some'] at h
          obtain ⟨⟨cs, r1⟩, _, heq⟩ := h
          injection heq with h1 h2
          subst h1
          rfl
        · split at h
          · split at h
            · split at h
              · injection h with h1
                injection h1 with h2 h3
                subst h2
                rfl
              · rw [Option.map_eq_some'] at h
                obtain ⟨⟨kvs, r1⟩, hp, heq⟩ := h
                injection heq with h1 h2
                subst h1
                have hwp := ihO _ _ _ hp
                have hd := dedupPairs_wf hwp
                show (keysNodupB (dedupPairs kvs) && wfPairs (dedupPairs kvs)) = true
                rw [hd.1, hd.2]
                rfl
            · exact Option.noConfusion h
          · split at h
            · split at h
              · split at h
                · injection h with h1
                  injection h1 with h2 h3
                  subst h2
                  rfl
                · rw [Option.map_eq_some'] at h
                  obtain ⟨⟨xs, r1⟩, hp, heq⟩ := h
                  injection heq with h1 h2
                  subst h1
                  exact ihA _ _ _ hp
              · exact Option.noConfusion h
            · split at h
              · split at h
                · injection h with h1
                  injection h1 with h2 h3
                  subst h2
                  rfl
                · exact Option.noConfusion h
              · split at h
                · split at h
                  · injection h with h1
                    injection h1 with h2 h3
                    subst h2
                    rfl
                  · exact Option.noConfusion h
                · split at h
                  · split at h
                    · injection h with h1
                      injection h1 with h2 h3
                      subst h2
                      rfl
                    · exact Option.noConfusion h
                  · rw [Option.map_eq_some'] at h
                    obtain ⟨⟨m, r1⟩, _, heq⟩ := h
                    injection heq with h1 h2
                    subst h1
                    rfl
    · intro s xs r h
      rw [parseArrItems_succ] at h
      split at h
      · exact Option.noConfusion h
      · split at h
        · rename_i vv r1 hpv hsk r2 hsw
          rw [Option.map_eq_some'] at h
          obtain ⟨⟨ys, r3⟩, hp, heq⟩ := h
          injection heq with h1 h2
          subst h1
          show (wfB vv && wfList ys) = true
          rw [ihV _ _ _ hpv, ihA _ _ _ hp]
          rfl
        · rename_i vv r1 hpv hsk r2 hsw
          injection h with h1
          injection h1 with h2 h3
          subst h2
          show (wfB vv && wfList []) = true
          rw [ihV _ _ _ hpv]
          rfl
        · exact Option.noConfusion h
    · intro s kvs r h
      rw [parseObjItems_succ] at h
      split at h
      · split at h
        · exact Option.noConfusion h
        · split at h
          · split at h
            · exact Option.noConfusion h
            · split at h
              · rename_i hrest k r1 hpk r2 hsw1 vv r3 hpv hsk r4 hsw2
                rw [Option.map_eq_some'] at h
                obtain ⟨⟨ps, r5⟩, hp, heq⟩ := h
                injection heq with h1 h2
                subst h1
                show (wfB vv && wfPairs ps) = true
                rw [ihV _ _ _ hpv, ihO _ _ _ hp]
                rfl
              · rename_i hrest k r1 hpk r2 hsw1 vv r3 hpv hsk r4 hsw2
                injection h with h1
                injection h1 with h2 h3
                subst h2
                show (wfB vv && wfPairs []) = true
                rw [ihV _ _ _ hpv]
                rfl
              · exact Option.noConfusion h
          · exact Option.noConfusion h
      · exact Option.noConfusion h

/-! ## The cleaner on parsed values -/

mutual

theorem cleanElement_idem (v : JVal) :
    cleanElement (cleanElement v) = cleanElement v := by
  cases v with
  | jobj kvs =>
    show JVal.jobj (cleanPairs (cleanPairs kvs)) = JVal.jobj (cleanPairs kvs)
    rw [cleanPairs_idem kvs]
  | jarr xs =>
    show JVal.jarr (cleanList (cleanList xs)) = JVal.jarr (cleanList xs)
    rw [cleanList_idem xs]
  | jstr s =>
    show JVal.jstr (normalizeSpaces (normalizeSpaces s)) =
      JVal.jstr (normalizeSpaces s)
    rw [normalizeSpaces_idem]
  | jnull => rfl
  | jbool b => rfl
  | jnum n => rfl

theorem cleanList_idem (xs : List JVal) :
    cleanList (cleanList xs) = cleanList xs := by
  cases xs with
  | nil => rfl
  | cons x xs =>
    show cleanElement (cleanElement x) :: cleanList (cleanList xs) = _
    rw [cleanElement_idem x, cleanList_idem xs]
    rfl

theorem cleanPairs_idem (kvs : List (List Char × JVal)) :
    cleanPairs (cleanPairs kvs) = cleanPairs kvs := by
  cases kvs with
  | nil => rfl
  | cons kv ps =>
    obtain ⟨k, v⟩ := kv
    show (k, cleanElement (cleanElement v)) :: cleanPairs (cleanPairs ps) = _
    rw [cleanElement_idem v, cleanPairs_idem ps]
    rfl

end

theorem keyMem_cleanPairs (kvs : List (List Char × JVal)) (q : List Char) :
    keyMem (cleanPairs kvs) q = keyMem kvs q := by
  induction kvs with
  | nil => rfl
  | cons kv ps ih =>
    obtain ⟨k, v⟩ := kv
    show keyMem ((k, cleanElement v) :: cleanPairs ps) q = _
    rw [keyMem_cons, keyMem_cons, ih]

theorem keysNodupB_cleanPairs (kvs : List (List Char × JVal)) :
    keysNodupB (cleanPairs kvs) = keysNodupB kvs := by
  induction kvs with
  | nil => rfl
  | cons kv ps ih =>
    obtain ⟨k, v⟩ := kv
    show keysNodupB ((k, cleanElement v) :: cleanPairs ps) = _
    rw [keysNodupB_cons, keysNodupB_cons, ih, keyMem_cleanPairs]

mutual

theorem cleanElement_wf (v : JVal) (h : wfB v = true) :
    wfB (cleanElement v) = true := by
  cases v with
  | jobj kvs =>
    have h2 : (keysNodupB kvs && wfPairs kvs) = true := h
    rw [Bool.and_eq_true] at h2
    show (keysNodupB (cleanPairs kvs) && wfPairs (cleanPairs kvs)) = true
    rw [keysNodupB_cleanPairs, h2.1, cleanPairs_wfPairs kvs h2.2]
    rfl
  | jarr xs => exact cleanList_wf xs h
  | jstr s => rfl
  | jnull => rfl
  | jbool b => rfl
  | jnum n => rfl

theorem cleanList_wf (xs : List JVal) (h : wfList xs = true) :
    wfList (cleanList xs) = true := by
  cases xs with
  | nil => rfl
  | cons x xs =>
    have h2 : (wfB x && wfList xs) = true := h
    rw [Bool.and_eq_true] at h2
    show (wfB (cleanElement x) && wfList (cleanList xs)) = true
    rw [cleanElement_wf x h2.1, cleanList_wf xs h2.2]
    rfl

theorem cleanPairs_wfPairs (kvs : List (List Char × JVal))
    (h : wfPairs kvs = true) : wfPairs (cleanPairs kvs) = true := by
  cases kvs with
  | nil => rfl
  | cons kv ps =>
    obtain ⟨k, v⟩ := kv
    have h2 : (wfB v && wfPairs ps) = true := h
    rw [Bool.and_eq_true] at h2
    show (wfB (cleanElement v) && wfPairs (cleanPairs ps)) = true
    rw [cleanElement_wf v h2.1, cleanPairs_wfPairs ps h2.2]
    rfl

end

mutual

/-- Shape comparison of a value and its cleaned form: objects must keep
exactly the same keys in the same order, arrays the same length and
alignment, string leaves may only be whitespace-normalized, and every
other leaf must be untouched. -/
def keysAlignedV : JVal → JVal → Bool
  | .jobj kvs, .jobj kvs2 => keysAlignedPairs kvs kvs2
  | .jarr xs, .jarr ys => keysAlignedList xs ys
  | .jstr s, .jstr t => t == normalizeSpaces s
  | .jnull, .jnull => true
  | .jbool a, .jbool b => a == b
  | .jnum a, .jnum b => a == b
  | _, _ => false

def keysAlignedList : List JVal → List JVal → Bool
  | [], [] => true
  | x :: xs, y :: ys => keysAlignedV x y && keysAlignedList xs ys
  | _, _ => false

def keysAlignedPairs : List (List Char × JVal) → List (List Char × JVal) → Bool
  | [], [] => true
  | (k, v) :: ps, (k2, v2) :: qs =>
    k == k2 && keysAlignedV v v2 && keysAlignedPairs ps qs
  | _, _ => false

end

mutual

theorem keysAligned_clean (v : JVal) : keysAlignedV v (cleanElement v) = true := by
  cases v with
  | jobj kvs => exact keysAligned_cleanPairs kvs
  | jarr xs => exact keysAligned_cleanList xs
  | jstr s =>
    show (normalizeSpaces s == normalizeSpaces s) = true
    exact beq_self_eq_true _
  | jnull => rfl
  | jbool b => exact beq_self_eq_true b
  | jnum n => exact beq_self_eq_true n

theorem keysAligned_cleanList (xs : List JVal) :
    keysAlignedList xs (cleanList xs) = true := by
  cases xs with
  | nil => rfl
  | cons x xs =>
    show (keysAlignedV x (cleanElement x) && keysAlignedList xs (cleanList xs)) = true
    rw [keysAligned_clean x, keysAligned_cleanList xs]
    rfl

theorem keysAligned_cleanPairs (kvs : List (List Char × JVal)) :
    keysAlignedPairs kvs (cleanPairs kvs) = true := by
  cases kvs with
  | nil => rfl
  | cons kv ps =>
    obtain ⟨k, v⟩ := kv
    show ((k == k && keysAlignedV v (cleanElement v)) &&
      keysAlignedPairs ps (cleanPairs ps)) = true
    rw [beq_self_eq_true, keysAligned_clean v, keysAligned_cleanPairs ps]
    rfl

end

/-! ## clean_json_spaces on the two branches -/

theorem cleanJsonSpaces_of_none {s : List Char} (h : pyLoads s = none) :
    cleanJsonSpaces s = s := by
  unfold cleanJsonSpaces
  rw [h]

theorem cleanJsonSpaces_of_some {s : List Char} {v : JVal}
    (h : pyLoads s = some v) : cleanJsonSpaces s = dumps (cleanElement v) := by
  unfold cleanJsonSpaces
  rw [h]

theorem pyLoads_wf {s : List Char} {v : JVal} (h : pyLoads s = some v) :
    wfB v = true := by
  unfold pyLoads at h
  split at h
  · rename_i v' r heq
    split at h
    · injection h with h1
      subst h1
      exact (parse_wf _).1 _ _ _ heq
    · exact Option.noConfusion h
  · exact Option.noConfusion h

/-- C8: `clean_json_spaces` is idempotent. If the input does not parse it
is returned unchanged (so a second pass returns it unchanged again); if it
parses, the output is the compact serialization of the cleaned value,
which parses back to the cleaned value, and cleaning is a fixed point on
already-cleaned values because `normalize_spaces` is idempotent. -/
theorem claim_C8 (x : List Char) :
    cleanJsonSpaces (cleanJsonSpaces x) = cleanJsonSpaces x := by
  cases hp : pyLoads x with
  | none => rw [cleanJsonSpaces_of_none hp, cleanJsonSpaces_of_none hp]
  | some v =>
    have hwf := pyLoads_wf hp
    rw [cleanJsonSpaces_of_some hp,
      cleanJsonSpaces_of_some (pyLoads_dumps (cleanElement_wf v hwf)),
      cleanElement_idem]

/-- C9: `_clean_element` never rewrites object keys. For any input text
that parses to a value `v`, the canonicalized text parses to a value that
agrees with `v` on every object key (verbatim, in the original order) and
on the shape of all arrays and objects, with only string leaves replaced
by their whitespace-normalized forms. -/
theorem claim_C9 (x : List Char) (v : JVal) (h : pyLoads x = some v) :
    ∃ w, pyLoads (cleanJsonSpaces x) = some w ∧ keysAlignedV v w = true := by
  have hwf := pyLoads_wf h
  refine ⟨cleanElement v, ?_, keysAligned_clean v⟩
  rw [cleanJsonSpaces_of_some h]
  exact pyLoads_dumps (cleanElement_wf v hwf)

def c9Input : List Char :=
  ['\x7b', '"', 'a', ' ', ' ', 'b', '"', ':', ' ', '"', ' ', 'c', ' ', '"', '\x7d']

def c9Val : JVal := JVal.jobj [(['a', ' ', ' ', 'b'], JVal.jstr [' ', 'c', ' '])]

theorem claim_C9_witness :
    ∃ w, pyLoads (cleanJsonSpaces c9Input) = some w ∧
      keysAlignedV c9Val w = true :=
  claim_C9 c9Input c9Val (by decide)

/-! ## NdjsonProcessor._extract_cnpj_and_json and _read_and_process_ndjson -/

def jsonOutputKey : List Char := ['j', 's', 'o', 'n', '_', 'o', 'u', 't', 'p', 'u', 't']

def cnpjKey : List Char := ['c', 'n', 'p', 'j']

/-- `dict.get`: the value stored under a key, if present (keys coming out
of the scanner are pairwise distinct, so the first hit is the value). -/
def jvalGet (kvs : List (List Char × JVal)) (q : List Char) : Option JVal :=
  (kvs.find? (fun p => p.1 == q)).map Prod.snd

/-- Python truthiness on parsed JSON values: `None`, `False`, `0`, and the
empty string, list and dict are falsy. -/
def pyFalsy : JVal → Bool
  | .jnull => true
  | .jbool b => !b
  | .jnum n => n == 0
  | .jstr s => s.isEmpty
  | .jarr xs => xs.isEmpty
  | .jobj kvs => kvs.isEmpty

/-- `NdjsonProcessor._extract_cnpj_and_json`. A line that fails to parse
returns `(None, json_line)` through the `except` branch. A parsed non-dict
also lands in `except`: the `"json_output" in data` membership test raises
`TypeError` on numbers/booleans/None, and on strings/lists either the
subscript or the `.get` attribute access raises. Under the envelope key,
a non-dict `data_element` likewise raises at `.get` (the re-serialization
of the envelope value happens before the raise and is discarded). A
missing or falsy `cnpj` value returns `(None, json_line)`; otherwise the
raw text (the original line, or the compact re-serialization of the
envelope value) is canonicalized and returned with the cnpj value. -/
def extractCnpjAndJson (jsonLine : List Char) : Option JVal × List Char :=
  match pyLoads jsonLine with
  | none => (none, jsonLine)
  | some data =>
    match data with
    | .jobj kvs =>
      match jvalGet kvs jsonOutputKey with
      | some (.jobj kvs2) =>
        match jvalGet kvs2 cnpjKey with
        | none => (none, jsonLine)
        | some v =>
          if pyFalsy v then (none, jsonLine)
          else (some v, cleanJsonSpaces (dumps (JVal.jobj kvs2)))
      | some _ => (none, jsonLine)
      | none =>
        match jvalGet kvs cnpjKey with
        | none => (none, jsonLine)
        | some v =>
          if pyFalsy v then (none, jsonLine)
          else (some v, cleanJsonSpaces jsonLine)
    | _ => (none, jsonLine)

/-- The identifier and stored body produced for one NDJSON line (the hash
is computed from the body afterwards and plays no role here). -/
structure ExtractedItem where
  cnpj : JVal
  json : List Char
deriving DecidableEq

/-- `process_line` inside `_read_and_process_ndjson`: strip the line, drop
it when empty, extract, and drop it when no identifier came back. -/
def processLine (line : List Char) : Option ExtractedItem :=
  if (pyStrip line).isEmpty then none
  else
    match extractCnpjAndJson (pyStrip line) with
    | (none, _) => none
    | (some v, body) => some ⟨v, body⟩

/-- `_read_and_process_ndjson`: per-line results with the `None`s dropped,
in input order. -/
def readAndProcessNdjson (lines : List (List Char)) : List ExtractedItem :=
  lines.filterMap processLine

/-- The value the extractor's falsy test inspects: the `cnpj` entry of the
parsed dict after unwrapping an optional dict-valued `json_output`
envelope; `none` when the parsed value is not a dict, when the envelope
value is not a dict, or when the key is absent. -/
def cnpjCandidate : JVal → Option JVal
  | .jobj kvs =>
    match jvalGet kvs jsonOutputKey with
    | some (.jobj kvs2) => jvalGet kvs2 cnpjKey
    | some _ => none
    | none => jvalGet kvs cnpjKey
  | _ => none

theorem wfPairs_value_of_mem {kvs : List (List Char × JVal)}
    (h : wfPairs kvs = true) {kv : List Char × JVal} (hm : kv ∈ kvs) :
    wfB kv.2 = true := by
  induction kvs with
  | nil => exact absurd hm (List.not_mem_nil kv)
  | cons p ps ih =>
    obtain ⟨k, v⟩ := p
    rw [wfPairs_cons, Bool.and_eq_true] at h
    rcases List.mem_cons.mp hm with he | hm'
    · rw [he]
      exact h.1
    · exact ih h.2 hm'

theorem jvalGet_wf {kvs : List (List Char × JVal)} (h : wfPairs kvs = true)
    {q : List Char} {v : JVal} (hg : jvalGet kvs q = some v) : wfB v = true := by
  unfold jvalGet at hg
  rw [Option.map_eq_some'] at hg
  obtain ⟨kv, hf, he⟩ := hg
  rw [← he]
  exact wfPairs_value_of_mem h (List.mem_of_find?_eq_some hf)

theorem jvalGet_cleanPairs (kvs : List (List Char × JVal)) (q : List Char) :
    jvalGet (cleanPairs kvs) q = (jvalGet kvs q).map cleanElement := by
  induction kvs with
  | nil => rfl
  | cons kv ps ih =>
    obtain ⟨k, v⟩ := kv
    show jvalGet ((k, cleanElement v) :: cleanPairs ps) q = _
    unfold jvalGet
    rw [List.find?_cons, List.find?_cons]
    by_cases h : (k == q) = true
    · rw [show ((k, cleanElement v).1 == q) = (true : Bool) from h]
      rfl
    · have hf : (k == q) = false := by rwa [Bool.not_eq_true] at h
      rw [show ((k, cleanElement v).1 == q) = (false : Bool) from hf]
      exact ih

def c1Line : List Char :=
  ['\x7b', '"', 'c', 'n', 'p', 'j', '"', ':', '"', '1', '2', ' ', ' ', '3', '4', '"', '\x7d']

/-- C1 counterexample: for the line `\x7b"cnpj":"12  34"\x7d` the extractor
emits the identifier `12  34` (the value parsed before cleaning), but the
stored body is the cleaned text, whose own `cnpj` field is the normalized
string `12 34`; the document's `cnpj` field does not equal the identifier
it is stored under. -/
theorem claim_C1_counterexample :
    extractCnpjAndJson c1Line =
      (some (JVal.jstr ['1', '2', ' ', ' ', '3', '4']),
       ['\x7b', '"', 'c', 'n', 'p', 'j', '"', ':', '"', '1', '2', ' ', '3', '4', '"', '\x7d']) ∧
    pyLoads (extractCnpjAndJson c1Line).2 =
      some (JVal.jobj [(cnpjKey, JVal.jstr ['1', '2', ' ', '3', '4'])]) ∧
    JVal.jstr ['1', '2', ' ', '3', '4'] ≠ JVal.jstr ['1', '2', ' ', ' ', '3', '4'] :=
  ⟨by decide, by decide, by decide⟩

/-- C1, amended: whenever the extractor emits an identifier value `v` with
stored body `body`, the body parses to a dict whose `cnpj` entry is the
cleaned form of `v`; for a string identifier `s` the stored `cnpj` field
is `normalize_spaces s`, which equals the identifier only when `s` is
already whitespace-normal (the identifier is read from the parsed line
before whitespace-cleaning, the stored body after). -/
theorem claim_C1 (line : List Char) (v : JVal) (body : List Char)
    (h : extractCnpjAndJson line = (some v, body)) :
    ∃ kvs, pyLoads body = some (JVal.jobj kvs) ∧
      jvalGet kvs cnpjKey = some (cleanElement v) ∧
      ∀ s, v = JVal.jstr s →
        jvalGet kvs cnpjKey = some (JVal.jstr (normalizeSpaces s)) := by
  unfold extractCnpjAndJson at h
  split at h
  · rw [Prod.mk.injEq] at h
    exact Option.noConfusion h.1
  · rename_i data hdata
    split at h
    · rename_i kvs
      have hwd : wfB (JVal.jobj kvs) = true := pyLoads_wf hdata
      have hwp : wfPairs kvs = true := by
        have h2 : (keysNodupB kvs && wfPairs kvs) = true := hwd
        exact (Bool.and_eq_true _ _ |>.mp h2).2
      split at h
      · rename_i kvs2 hjo
        have hwe : wfB (JVal.jobj kvs2) = true := jvalGet_wf hwp hjo
        have hwp2 : wfPairs kvs2 = true := by
          have h2 : (keysNodupB kvs2 && wfPairs kvs2) = true := hwe
          exact (Bool.and_eq_true _ _ |>.mp h2).2
        split at h
        · rw [Prod.mk.injEq] at h
          exact Option.noConfusion h.1
        · rename_i w hcn
          split at h
          · rw [Prod.mk.injEq] at h
            exact Option.noConfusion h.1
          · rw [Prod.mk.injEq] at h
            obtain ⟨h1, h2⟩ := h
            injection h1 with h1
            refine ⟨cleanPairs kvs2, ?_, ?_, ?_⟩
            · rw [← h2, cleanJsonSpaces_of_some (pyLoads_dumps hwe)]
              exact pyLoads_dumps (cleanElement_wf _ hwe)
            · rw [jvalGet_cleanPairs, hcn, h1]
              rfl
            · intro s hs
              rw [jvalGet_cleanPairs, hcn, h1, hs]
              rfl
      · rw [Prod.mk.injEq] at h
        exact Option.noConfusion h.1
      · rename_i hjo
        split at h
        · rw [Prod.mk.injEq] at h
          exact Option.noConfusion h.1
        · rename_i w hcn
          split at h
          · rw [Prod.mk.injEq] at h
            exact Option.noConfusion h.1
          · rw [Prod.mk.injEq] at h
            obtain ⟨h1, h2⟩ := h
            injection h1 with h1
            refine ⟨cleanPairs kvs, ?_, ?_, ?_⟩
            · rw [← h2, cleanJsonSpaces_of_some hdata]
              exact pyLoads_dumps (cleanElement_wf _ hwd)
            · rw [jvalGet_cleanPairs, hcn, h1]
              rfl
            · intro s hs
              rw [jvalGet_cleanPairs, hcn, h1, hs]
              rfl
    · rw [Prod.mk.injEq] at h
      exact Option.noConfusion h.1

def c1WitnessLine : List Char :=
  ['\x7b', '"', 'c', 'n', 'p', 'j', '"', ':', '"', 'a', 'b', '"', '\x7d']

theorem claim_C1_witness :
    ∃ kvs, pyLoads (extractCnpjAndJson c1WitnessLine).2 =
        some (JVal.jobj kvs) ∧
      jvalGet kvs cnpjKey = some (cleanElement (JVal.jstr ['a', 'b'])) ∧
      ∀ s, JVal.jstr ['a', 'b'] = JVal.jstr s →
        jvalGet kvs cnpjKey = some (JVal.jstr (normalizeSpaces s)) :=
  claim_C1 c1WitnessLine (JVal.jstr ['a', 'b'])
    (extractCnpjAndJson c1WitnessLine).2 (by decide)

/-- C10: a line that does not parse, or whose parsed value carries no
truthy `cnpj` entry after the optional envelope unwrap, is dropped
silently: `process_line` returns `None` and the line contributes nothing
to the processed list that is subsequently hashed, diffed, written and
uploaded. (Lines Python would parse as floats fall outside the integer
embedding and take the parse-failure branch here.) -/
theorem claim_C10 (line : List Char)
    (h : pyLoads (pyStrip line) = none ∨
      ∃ data, pyLoads (pyStrip line) = some data ∧
        (cnpjCandidate data = none ∨
         ∃ v, cnpjCandidate data = some v ∧ pyFalsy v = true)) :
    processLine line = none ∧
    ∀ pre post, readAndProcessNdjson (pre ++ line :: post) =
      readAndProcessNdjson (pre ++ post) := by
  have hex : extractCnpjAndJson (pyStrip line) = (none, pyStrip line) := by
    unfold extractCnpjAndJson
    split
    · rfl
    · rename_i data hd2
      split
      · rename_i kvs
        split
        · rename_i kvs2 hjo
          split
          · rfl
          · rename_i w hcn
            split
            · rfl
            · exfalso
              rename_i hfal
              rcases h with hn | ⟨data2, hd3, hc⟩
              · rw [hn] at hd2
                exact Option.noConfusion hd2
              · rw [hd3] at hd2
                injection hd2 with hd2
                subst hd2
                have hcc : cnpjCandidate (JVal.jobj kvs) = some w := by
                  show (match jvalGet kvs jsonOutputKey with
                    | some (.jobj kvs2) => jvalGet kvs2 cnpjKey
                    | some _ => none
                    | none => jvalGet kvs cnpjKey) = some w
                  rw [hjo]
                  show jvalGet kvs2 cnpjKey = some w
                  exact hcn
                rcases hc with hnone | ⟨v2, hv2, hfv2⟩
                · rw [hcc] at hnone
                  exact Option.noConfusion hnone
                · rw [hcc] at hv2
                  injection hv2 with hv2
                  subst hv2
                  exact hfal hfv2
        · rfl
        · rename_i hjo
          split
          · rfl
          · rename_i w hcn
            split
            · rfl
            · exfalso
              rename_i hfal
              rcases h with hn | ⟨data2, hd3, hc⟩
              · rw [hn] at hd2
                exact Option.noConfusion hd2
              · rw [hd3] at hd2
                injection hd2 with hd2
                subst hd2
                have hcc : cnpjCandidate (JVal.jobj kvs) = some w := by
                  show (match jvalGet kvs jsonOutputKey with
                    | some (.jobj kvs2) => jvalGet kvs2 cnpjKey
                    | some _ => none
                    | none => jvalGet kvs cnpjKey) = some w
                  rw [hjo]
                  show jvalGet kvs cnpjKey = some w
                  exact hcn
                rcases hc with hnone | ⟨v2, hv2, hfv2⟩
                · rw [hcc] at hnone
                  exact Option.noConfusion hnone
                · rw [hcc] at hv2
                  injection hv2 with hv2
                  subst hv2
                  exact hfal hfv2
      · rfl
  have hdrop : processLine line = none := by
    unfold processLine
    by_cases hse : (pyStrip line).isEmpty
    · rw [if_pos hse]
    · rw [if_neg hse, hex]
  refine ⟨hdrop, ?_⟩
  intro pre post
  unfold readAndProcessNdjson
  rw [List.filterMap_append, List.filterMap_append,
    List.filterMap_cons_none hdrop]

def c10BadLine : List Char := ['n', 'o', 't', ' ', 'j', 's', 'o', 'n']

def c10KeptLine : List Char :=
  ['\x7b', '"', 'c', 'n', 'p', 'j', '"', ':', '"', 'z', '"', '\x7d']

theorem claim_C10_witness :
    processLine c10BadLine = none ∧
    readAndProcessNdjson [c10KeptLine, c10BadLine] =
      readAndProcessNdjson [c10KeptLine] :=
  ⟨(claim_C10 c10BadLine (Or.inl (by decide))).1,
   (claim_C10 c10BadLine (Or.inl (by decide))).2 [c10KeptLine] []⟩

end OpenCNPJ
